import Mathlib

/-!
Shallow embedding of the Constraint Knowledge Engine of the echidna
repository (constraint_model.py, confidence_evolution.py,
pattern_discovery.py, interpreter.py, main.py), together with theorems
settling the frozen claims C1..C10 about it.

Conventions of the embedding:
* Python `dict`s (which preserve insertion order) are modelled as
  association lists; `d[k] = v` is `dictInsert`, `d.get(k)` is `dictGet`,
  and the `if k not in d: d[k] = []` / `d[k].append(x)` idiom is
  `dictAppend`.
* Python floats are modelled as exact rationals; the only genuinely real
  valued quantity, `statistics.stdev`, is modelled with `Real.sqrt` of the
  exact sample variance.
* `datetime` metadata (discovered_at, last_validated, context_tags) is
  elided: no claim and no modelled code path reads it.
* The nested mutable dictionaries of the OpenAPI specification object are
  modelled by an explicit heap of nodes addressed by `Addr`, because
  `get_enhanced_schema` performs a shallow `dict.copy()` whose aliasing
  behaviour is observable.
-/

namespace Echidna

/-- Primitive Python values appearing in constraint payloads and specs. -/
inductive Prim where
  | str (s : String)
  | int (n : Int)
  | rat (q : ℚ)
  | bool (b : Bool)
deriving DecidableEq, Repr

/-- The eight constraint kinds of `ConstraintType` in constraint_model.py. -/
inductive ConstraintType where
  | requiredField
  | formatValidation
  | conditionalRequirement
  | mutualExclusivity
  | formatDependency
  | businessRule
  | rateLimiting
  | valueConstraint
deriving DecidableEq, Repr

/-- The `.value` string of each `ConstraintType` enum member. -/
def ConstraintType.value : ConstraintType → String
  | .requiredField => "required_field"
  | .formatValidation => "format_validation"
  | .conditionalRequirement => "conditional_requirement"
  | .mutualExclusivity => "mutual_exclusivity"
  | .formatDependency => "format_dependency"
  | .businessRule => "business_rule"
  | .rateLimiting => "rate_limiting"
  | .valueConstraint => "value_constraint"

/-- `ConditionalRule` of constraint_model.py. -/
structure ConditionalRule where
  conditionField : String
  conditionValue : Prim
  conditionOperator : String
  requiredField : String
  requiredValue : Option Prim := none
deriving DecidableEq, Repr

/-- `MutualExclusivityRule` of constraint_model.py. -/
structure MutualExclusivityRule where
  exclusiveFields : List String
  minRequired : Int := 1
  maxAllowed : Int := 1
deriving DecidableEq, Repr

/-- `FormatDependencyRule` of constraint_model.py. -/
structure FormatDependencyRule where
  dependentField : String
  dependencyField : String
  dependencyValue : Prim
  requiredFormat : String
deriving DecidableEq, Repr

/-- `BusinessRule` of constraint_model.py.  `constraint_value` may also be a
dict in Python; only primitive values flow through the modelled paths. -/
structure BusinessRule where
  field : String
  ruleType : String
  constraintValue : Prim
  errorMessage : String
deriving DecidableEq, Repr

/-- `RateLimitRule` of constraint_model.py. -/
structure RateLimitRule where
  endpointPattern : String
  maxRequests : Int
  timeWindowSeconds : Int
  scope : String := "per_user"
deriving DecidableEq, Repr

/-- `LearnedConstraint` of constraint_model.py.  The `formal_constraint`
dict is modelled as a string-to-string association list (only its "format"
key is ever read, by `_apply_format_constraint`).  Timestamp and tag
metadata is elided. -/
structure LearnedConstraint where
  constraintType : ConstraintType
  affectedParameter : String
  endpointPath : String
  ruleDescription : String
  formalConstraint : List (String × String)
  confidenceScore : ℚ := 1
  successCount : Nat := 0
  failureCount : Nat := 0
  conditionalRule : Option ConditionalRule := none
  exclusivityRule : Option MutualExclusivityRule := none
  formatDependency : Option FormatDependencyRule := none
  businessRule : Option BusinessRule := none
  rateLimitRule : Option RateLimitRule := none
deriving DecidableEq, Repr

/-- `LearnedConstraint.update_confidence`: bump a tally and recompute the
confidence score as the success ratio. -/
def LearnedConstraint.updateConfidence (c : LearnedConstraint) (success : Bool) :
    LearnedConstraint :=
  let c := if success then { c with successCount := c.successCount + 1 }
           else { c with failureCount := c.failureCount + 1 }
  let totalAttempts := c.successCount + c.failureCount
  if totalAttempts > 0 then
    { c with confidenceScore := (c.successCount : ℚ) / (totalAttempts : ℚ) }
  else c

section Dict

variable {κ α β : Type} [DecidableEq κ]

/-- Python `d[k] = v` on an insertion-ordered dict: replace in place if the
key exists, else append a new entry. -/
def dictInsert (k : κ) (v : α) : List (κ × α) → List (κ × α)
  | [] => [(k, v)]
  | (k', v') :: rest =>
    if k' = k then (k, v) :: rest else (k', v') :: dictInsert k v rest

/-- Python `d.get(k)` / `d[k]` on an insertion-ordered dict. -/
def dictGet (k : κ) : List (κ × α) → Option α
  | [] => none
  | (k', v) :: rest => if k' = k then some v else dictGet k rest

/-- The Python idiom `if k not in d: d[k] = []` followed by
`d[k].append(x)` (also `defaultdict(list)` appends). -/
def dictAppend (k : κ) (x : β) : List (κ × List β) → List (κ × List β)
  | [] => [(k, [x])]
  | (k', l) :: rest =>
    if k' = k then (k, l ++ [x]) :: rest else (k', l) :: dictAppend k x rest

end Dict

/-- The mutable state of `APIConstraintModel` (constraint_model.py).  The
`base_spec` dict lives in the explicit heap introduced later and is passed
separately to `get_enhanced_schema`; `rate_limit_tracker` is never used by
the modelled code paths and is elided. -/
structure APIConstraintModel where
  learnedConstraints : List (String × LearnedConstraint) := []
  endpointRules : List (String × List String) := []
  constraintsByType : List (ConstraintType × List String) := []
  conditionalDependencies : List (String × List String) := []
  formatDependencies : List (String × List String) := []
  businessRulesIndex : List (String × List String) := []
deriving DecidableEq, Repr

/-- `APIConstraintModel._generate_constraint_id`. -/
def generateConstraintId (c : LearnedConstraint) : String :=
  let baseId := c.endpointPath ++ "_" ++ c.affectedParameter ++ "_" ++ c.constraintType.value
  match c.conditionalRule, c.exclusivityRule, c.formatDependency with
  | some r, _, _ => baseId ++ "_cond_" ++ r.conditionField
  | none, some r, _ => baseId ++ "_excl_" ++ String.intercalate "_" r.exclusiveFields
  | none, none, some r => baseId ++ "_fmt_" ++ r.dependencyField
  | none, none, none => baseId

/-- `APIConstraintModel._update_specialized_indexes`. -/
def updateSpecializedIndexes (cid : String) (c : LearnedConstraint)
    (m : APIConstraintModel) : APIConstraintModel :=
  let m := match c.conditionalRule with
    | some r => { m with conditionalDependencies := dictAppend r.conditionField cid m.conditionalDependencies }
    | none => m
  let m := match c.formatDependency with
    | some r => { m with formatDependencies := dictAppend r.dependencyField cid m.formatDependencies }
    | none => m
  match c.businessRule with
  | some r => { m with businessRulesIndex := dictAppend r.field cid m.businessRulesIndex }
  | none => m

/-- `APIConstraintModel.add_constraint`: store (unconditionally overwriting
any entry under the same id) and update every index. -/
def addConstraint (m : APIConstraintModel) (c : LearnedConstraint) :
    String × APIConstraintModel :=
  let constraintId := generateConstraintId c
  let m := { m with learnedConstraints := dictInsert constraintId c m.learnedConstraints }
  let m := { m with endpointRules := dictAppend c.endpointPath constraintId m.endpointRules }
  let m := { m with constraintsByType := dictAppend c.constraintType constraintId m.constraintsByType }
  (constraintId, updateSpecializedIndexes constraintId c m)

/-- Direct field match check of `get_related_constraints`. -/
def relDirect (fieldName : String) (c : LearnedConstraint) : Bool :=
  c.affectedParameter = fieldName

/-- Conditional-dependency match check of `get_related_constraints`. -/
def relConditional (fieldName : String) (c : LearnedConstraint) : Bool :=
  match c.conditionalRule with
  | some r => r.conditionField = fieldName || r.requiredField = fieldName
  | none => false

/-- Format-dependency match check of `get_related_constraints`. -/
def relFormat (fieldName : String) (c : LearnedConstraint) : Bool :=
  match c.formatDependency with
  | some r => r.dependentField = fieldName || r.dependencyField = fieldName
  | none => false

/-- Mutual-exclusivity match check of `get_related_constraints`. -/
def relExclusivity (fieldName : String) (c : LearnedConstraint) : Bool :=
  match c.exclusivityRule with
  | some r => fieldName ∈ r.exclusiveFields
  | none => false

/-- The four sequential conditional appends that the loop body of
`get_related_constraints` performs for one constraint. -/
def relatedOne (fieldName : String) (c : LearnedConstraint) : List LearnedConstraint :=
  (if relDirect fieldName c then [c] else []) ++
  (if relConditional fieldName c then [c] else []) ++
  (if relFormat fieldName c then [c] else []) ++
  (if relExclusivity fieldName c then [c] else [])

/-- Endpoint filter of `get_related_constraints`: with a filter, skip
constraints on other endpoints. -/
def relEndpointOk (endpointPath : Option String) (c : LearnedConstraint) : Bool :=
  match endpointPath with
  | some ep => c.endpointPath = ep
  | none => true

/-- Loop of `APIConstraintModel.get_related_constraints` over the stored
entries in insertion order. -/
def getRelatedLoop (fieldName : String) (endpointPath : Option String) :
    List (String × LearnedConstraint) → List LearnedConstraint
  | [] => []
  | (_, c) :: rest =>
    (if relEndpointOk endpointPath c then relatedOne fieldName c else []) ++
      getRelatedLoop fieldName endpointPath rest

/-- `APIConstraintModel.get_related_constraints`. -/
def getRelatedConstraints (m : APIConstraintModel) (fieldName : String)
    (endpointPath : Option String := none) : List LearnedConstraint :=
  getRelatedLoop fieldName endpointPath m.learnedConstraints

/-- Number of the four relationship checks of `get_related_constraints`
that a constraint satisfies for a given field. -/
def relCount (fieldName : String) (c : LearnedConstraint) : Nat :=
  (if relDirect fieldName c then 1 else 0) +
  (if relConditional fieldName c then 1 else 0) +
  (if relFormat fieldName c then 1 else 0) +
  (if relExclusivity fieldName c then 1 else 0)

/-! ## Confidence evolution (confidence_evolution.py)

A validation history is the retained window of `ValidationEvent.success`
flags, oldest first; timestamps and contexts are elided since
`calculate_evolved_confidence` reads only the success flags and the list
length. -/

/-- Trend direction strings of `calculate_evolved_confidence`. -/
inductive TrendDirection where
  | improving
  | declining
  | stable
deriving DecidableEq, Repr

/-- Python `sum(1 for event in events if event.success)`. -/
def countSuccess (events : List Bool) : Nat :=
  events.countP id

/-- `historical_accuracy`: success ratio over the retained window, falling
back to the as-created confidence for an empty history. -/
def historicalAccuracy (base : ℚ) (events : List Bool) : ℚ :=
  if events.length > 0 then (countSuccess events : ℚ) / (events.length : ℚ) else base

/-- Python `events[-5:] if len(events) >= 5 else events`. -/
def recentEvents (events : List Bool) : List Bool :=
  if events.length ≥ 5 then events.drop (events.length - 5) else events

/-- `recent_performance`: accuracy over the last 5 events (or fewer),
falling back to `historical_accuracy` when there are none. -/
def recentPerformance (base : ℚ) (events : List Bool) : ℚ :=
  let re := recentEvents events
  if re.length > 0 then (countSuccess re : ℚ) / (re.length : ℚ)
  else historicalAccuracy base events

/-- Trend classification from the floor-split halves of the history;
requires at least 4 events, otherwise `stable`. -/
def trendDirection (events : List Bool) : TrendDirection :=
  if events.length ≥ 4 then
    let firstHalf := events.take (events.length / 2)
    let secondHalf := events.drop (events.length / 2)
    let firstHalfAccuracy : ℚ := (countSuccess firstHalf : ℚ) / (firstHalf.length : ℚ)
    let secondHalfAccuracy : ℚ := (countSuccess secondHalf : ℚ) / (secondHalf.length : ℚ)
    if secondHalfAccuracy > firstHalfAccuracy + 0.1 then .improving
    else if secondHalfAccuracy < firstHalfAccuracy - 0.1 then .declining
    else .stable
  else .stable

/-- The sliding 3-event window success rates
(`for i in range(len(events) - 2): window = events[i:i+3]`). -/
def successRates (events : List Bool) : List ℚ :=
  (List.range (events.length - 2)).map fun i =>
    let window := (events.drop i).take 3
    (countSuccess window : ℚ) / (window.length : ℚ)

/-- Exact sample variance, the square of Python `statistics.stdev`. -/
def sampleVariance (xs : List ℚ) : ℚ :=
  let n : ℚ := (xs.length : ℚ)
  let mean := xs.sum / n
  ((xs.map fun x => (x - mean) ^ 2).sum) / (n - 1)

/-- `stability_score`: one minus the sample standard deviation of the
3-window success rates; 1.0 with fewer than 3 events or fewer than 2
rates. -/
noncomputable def stabilityScore (events : List Bool) : ℝ :=
  if events.length ≥ 3 then
    let rates := successRates events
    if rates.length > 1 then 1 - Real.sqrt (sampleVariance rates) else 1
  else 1

/-- The evolved (current) confidence of `calculate_evolved_confidence` for
a tracked history: the weighted blend, the trend adjustment with its
clamps, and the stability multiplication, with the constants of the
source. -/
noncomputable def evolvedConfidence (base : ℚ) (events : List Bool) : ℝ :=
  let historicalWeight : ℚ := 0.4
  let recentWeight : ℚ := 0.4
  let trendWeight : ℚ := 0.2
  let blended : ℚ :=
    base * (1 - historicalWeight - recentWeight - trendWeight) +
    historicalAccuracy base events * historicalWeight +
    recentPerformance base events * recentWeight
  let adjusted : ℝ :=
    match trendDirection events with
    | .improving => min 1 ((blended : ℝ) + 0.05)
    | .declining => max 0 ((blended : ℝ) - 0.05)
    | .stable => (blended : ℝ)
  adjusted * stabilityScore events

/-- `ConfidenceMetrics` of confidence_evolution.py. -/
structure ConfidenceMetrics where
  currentConfidence : ℝ
  historicalAccuracy : ℚ
  trendDirection : TrendDirection
  validationCount : Nat
  recentPerformance : ℚ
  stabilityScore : ℝ

/-- `AdvancedConfidenceEvolution.calculate_evolved_confidence`, with the
constraint's tracked history passed explicitly (`none` models a
constraint id absent from `validation_history`). -/
noncomputable def calculateEvolvedConfidence (base : ℚ)
    (history : Option (List Bool)) : ConfidenceMetrics :=
  match history with
  | none =>
    { currentConfidence := (base : ℝ)
      historicalAccuracy := base
      trendDirection := .stable
      validationCount := 0
      recentPerformance := base
      stabilityScore := 1 }
  | some events =>
    { currentConfidence := evolvedConfidence base events
      historicalAccuracy := historicalAccuracy base events
      trendDirection := trendDirection events
      validationCount := events.length
      recentPerformance := recentPerformance base events
      stabilityScore := stabilityScore events }

/-! ## Failure interpretation (interpreter.py) and the loop's use of it
(main.py)

`interpret_failure` mixes pure guard logic with external effects (reading
the failure artifact, the Gemini call, JSON extraction).  The effects are
abstracted to their outcomes: the `(status_code, error_message)` pair that
`_extract_failure_details` produced, and the parsed, pydantic-validated
rule the LLM response yielded (`none` for every failure path: missing
file, no JSON, decode error, validation error).  The guard logic on lines
92-99 and the constraint construction are modelled faithfully. -/

/-- Python `s.startswith(p)`, char-level. -/
def pyStartsWith (s p : String) : Bool :=
  s.toList.take p.toList.length = p.toList

/-- `EnhancedInferredRule` of interpreter.py after pydantic validation,
with the kind-specific detail dicts parsed into their rule structures. -/
structure InferredRule where
  ruleDescription : String
  constraintType : String
  affectedParameter : String
  endpointPath : String
  formalConstraint : List (String × String)
  confidence : ℚ := 0.8
  isLearnable : Bool := true
  conditionalLogic : Option ConditionalRule := none
  exclusivityInfo : Option MutualExclusivityRule := none
  formatDependencyInfo : Option FormatDependencyRule := none
  businessRuleInfo : Option BusinessRule := none
  rateLimitInfo : Option RateLimitRule := none
deriving DecidableEq, Repr

/-- `ConstraintType(inferred_rule.constraint_type)`: enum lookup by value
string, `none` modelling the `ValueError` branch. -/
def parseConstraintType (s : String) : Option ConstraintType :=
  if s = "required_field" then some .requiredField
  else if s = "format_validation" then some .formatValidation
  else if s = "conditional_requirement" then some .conditionalRequirement
  else if s = "mutual_exclusivity" then some .mutualExclusivity
  else if s = "format_dependency" then some .formatDependency
  else if s = "business_rule" then some .businessRule
  else if s = "rate_limiting" then some .rateLimiting
  else if s = "value_constraint" then some .valueConstraint
  else none

/-- Construction of the `LearnedConstraint` from a validated inferred rule
(interpreter.py lines 247-295): base fields plus at most one kind-specific
detail rule, attached only when the constraint type matches and the detail
payload is present. -/
def buildLearnedConstraint (r : InferredRule) (ct : ConstraintType) : LearnedConstraint :=
  let c : LearnedConstraint :=
    { constraintType := ct
      affectedParameter := r.affectedParameter
      endpointPath := r.endpointPath
      ruleDescription := r.ruleDescription
      formalConstraint := r.formalConstraint
      confidenceScore := r.confidence }
  match ct, r.conditionalLogic, r.exclusivityInfo, r.formatDependencyInfo,
      r.businessRuleInfo, r.rateLimitInfo with
  | .conditionalRequirement, some d, _, _, _, _ => { c with conditionalRule := some d }
  | .mutualExclusivity, _, some d, _, _, _ => { c with exclusivityRule := some d }
  | .formatDependency, _, _, some d, _, _ => { c with formatDependency := some d }
  | .businessRule, _, _, _, some d, _ => { c with businessRule := some d }
  | .rateLimiting, _, _, _, _, some d => { c with rateLimitRule := some d }
  | _, _, _, _, _, _ => c

/-- `interpret_failure` (interpreter.py): returns no candidate when no
error message was extracted; skips (returns no candidate) when a truthy
status code was extracted that does not start with "4"; otherwise defers
to the LLM outcome and builds the learned constraint. -/
def interpretFailure (statusCode : Option String) (errorMessage : Option String)
    (llmRule : Option InferredRule) : Option LearnedConstraint :=
  match errorMessage with
  | none => none
  | some _ =>
    let statusTruthy : Bool := match statusCode with
      | some s => ¬ s = ""
      | none => false
    let statusNon4xx : Bool := match statusCode with
      | some s => ¬ pyStartsWith s "4"
      | none => false
    if statusTruthy && statusNon4xx then none
    else
      match llmRule with
      | none => none
      | some r =>
        if ¬ r.isLearnable then none
        else
          match parseConstraintType r.constraintType with
          | none => none
          | some ct => some (buildLearnedConstraint r ct)

/-- The failed-attempt update of the learning loop (main.py lines
156-159): whenever the interpretation step returns a candidate, it is
added to the constraint model, with no further status check. -/
def failedAttemptUpdate (m : APIConstraintModel)
    (candidate : Option LearnedConstraint) : APIConstraintModel :=
  match candidate with
  | some c => (addConstraint m c).2
  | none => m

/-! ## Convergence (main.py) -/

/-- `has_converged` (main.py): false with fewer than `window_size`
recorded attempts, else true exactly when none of the last `window_size`
attempts learned a constraint.  An attempt is recorded as the
`learned_constraint` field of its attempt record. -/
def hasConverged (recentAttempts : List (Option LearnedConstraint))
    (windowSize : Nat := 3) : Bool :=
  if recentAttempts.length < windowSize then false
  else
    let recentLearningEvents := recentAttempts.drop (recentAttempts.length - windowSize)
    let newConstraintsCount := recentLearningEvents.countP (fun c => c.isSome)
    let convergenceThreshold := 0
    newConstraintsCount ≤ convergenceThreshold

/-- The learning loop of `main` (main.py lines 96-177) restricted to its
attempt bookkeeping: each attempt appends its record and the loop breaks
as soon as `has_converged` holds.  `outcomes` is the sequence of
constraints the attempts would learn, bounded by the attempt budget. -/
def learningLoopAux (acc : List (Option LearnedConstraint)) :
    List (Option LearnedConstraint) → List (Option LearnedConstraint) × Bool
  | [] => (acc, false)
  | o :: rest =>
    let acc' := acc ++ [o]
    if hasConverged acc' 3 then (acc', true) else learningLoopAux acc' rest

/-- Run the learning loop from an empty attempt list; returns the recorded
attempts and whether the loop reported convergence. -/
def runLearningLoop (outcomes : List (Option LearnedConstraint)) :
    List (Option LearnedConstraint) × Bool :=
  learningLoopAux [] outcomes

/-! ## Pattern discovery (pattern_discovery.py)

`CrossEndpointPattern.parameter_patterns` is a free-form dict; the only key
the modelled downstream code reads is `parameter_name` (in
`_calculate_pattern_applicability` and `_generate_constraint_suggestions`),
so the payload is reduced to that optional entry.  `affected_endpoints` is
a Python set built from the contributing endpoint list; it is modelled as
the deduplicated list (first occurrences kept), which determines the set.
Validation counters and the discovery timestamp are elided. -/

/-- `PatternScope` of pattern_discovery.py. -/
inductive PatternScope where
  | endpointSpecific
  | domainWide
  | parameterBased
  | operationBased
  | global
deriving DecidableEq, Repr

/-- `CrossEndpointPattern` of pattern_discovery.py (see section comment
for the elided payload fields). -/
structure CrossEndpointPattern where
  patternId : String
  patternType : String
  patternDescription : String
  scope : PatternScope
  confidence : ℚ
  supportingConstraints : List String
  affectedEndpoints : List String
  paramName : Option String := none
deriving DecidableEq, Repr

/-- Character-level splitter implementing Python `s.split(sep)` for a
single-character separator, empty parts retained. -/
def splitChars (sep : Char) : List Char → List (List Char)
  | [] => [[]]
  | c :: rest =>
    match splitChars sep rest with
    | [] => [[]]
    | part :: parts =>
      if c = sep then [] :: part :: parts else (c :: part) :: parts

/-- Python `s.split(sep)` for a single-character separator. -/
def pySplit (sep : Char) (s : String) : List String :=
  (splitChars sep s.toList).map String.mk

/-- The `supporting_constraints` list every discovery function builds:
`[f"constraint_{i}" for i, c in enumerate(constraints)]`. -/
def supportingIds (cs : List LearnedConstraint) : List String :=
  (List.range cs.length).map fun i => "constraint_" ++ toString i

/-- Python `min(c.confidence_score for c in constraints)` (0 as the junk
value for the empty generator, on which Python would raise). -/
def minConfidence : List LearnedConstraint → ℚ
  | [] => 0
  | c :: cs => cs.foldl (fun acc c' => min acc c'.confidenceScore) c.confidenceScore

/-- Mean confidence `sum(c.confidence_score for cs) / len(cs)`. -/
def meanConfidence (cs : List LearnedConstraint) : ℚ :=
  (cs.map (·.confidenceScore)).sum / (cs.length : ℚ)

/-- Python `len(set(xs))` via deduplication keeping first occurrences. -/
def pySet (xs : List String) : List String :=
  xs.eraseDups

/-- Grouping pass `groups['by_parameter']` built by
`_group_constraints_by_characteristics`: a `defaultdict(list)` keyed by
`affected_parameter`, filled in repository iteration order. -/
def groupByParameter (cs : List LearnedConstraint) :
    List (String × List LearnedConstraint) :=
  cs.foldl (fun acc c => dictAppend c.affectedParameter c acc) []

/-- `AdvancedPatternDiscovery._discover_parameter_patterns`: one pattern
per parameter whose at-least-two constraints share a single constraint
type and span more than one endpoint. -/
def discoverParameterPatterns (groups : List (String × List LearnedConstraint)) :
    List CrossEndpointPattern :=
  groups.filterMap fun g =>
    let paramName := g.1
    let constraints := g.2
    if constraints.length < 2 then none
    else
      let constraintTypes := constraints.map (·.constraintType)
      let endpoints := constraints.map (·.endpointPath)
      if constraintTypes.eraseDups.length = 1 && (pySet endpoints).length > 1 then
        let ct0 := constraintTypes.headD .requiredField
        some
          { patternId := "param_" ++ paramName ++ "_" ++ ct0.value
            patternType := "parameter_validation"
            patternDescription := "Parameter '" ++ paramName ++
              "' consistently requires " ++ ct0.value ++
              " validation across multiple endpoints"
            scope := .parameterBased
            confidence := minConfidence constraints
            supportingConstraints := supportingIds constraints
            affectedEndpoints := pySet endpoints
            paramName := some paramName }
      else none

/-- The exclusivity signature string
`f"{'_'.join(sorted(fields))}_{min_required}_{max_allowed}"`. -/
def exclusivitySignature (r : MutualExclusivityRule) : String :=
  String.intercalate "_" (r.exclusiveFields.insertionSort (· ≤ ·)) ++
    "_" ++ toString r.minRequired ++ "_" ++ toString r.maxAllowed

/-- `AdvancedPatternDiscovery._discover_validation_patterns`: group the
mutual-exclusivity constraints by signature; signatures with at least two
constraints become one pattern each. -/
def discoverValidationPatterns (exclusivityConstraints : List LearnedConstraint) :
    List CrossEndpointPattern :=
  let exclusivityPatterns :=
    exclusivityConstraints.foldl
      (fun acc c =>
        match c.exclusivityRule with
        | some r => dictAppend (exclusivitySignature r) c acc
        | none => acc)
      []
  exclusivityPatterns.filterMap fun g =>
    let signature := g.1
    let constraints := g.2
    if constraints.length ≥ 2 then
      let endpoints := constraints.map (·.endpointPath)
      some
        { patternId := "exclusivity_" ++ signature
          patternType := "mutual_exclusivity"
          patternDescription := "Mutual exclusivity pattern '" ++ signature ++
            "' appears across " ++ toString endpoints.length ++ " endpoints"
          scope := if endpoints.length > 2 then .domainWide else .parameterBased
          confidence := meanConfidence constraints
          supportingConstraints := supportingIds constraints
          affectedEndpoints := pySet endpoints }
    else none

/-- Python `isinstance(value, (int, float))`; booleans are instances of
`int` in Python. -/
def Prim.isNumeric : Prim → Bool
  | .int _ => true
  | .rat _ => true
  | .bool _ => true
  | .str _ => false

/-- The value-range grouping key of `_discover_business_rule_patterns`,
`f"min_{value}"` / `f"max_{value}"` / `f"value_{value}"`.  Python keys the
dict by the formatted string; since the formatting is injective on the
numeric primitives, the key is modelled as the (tag, value) pair. -/
def businessRangeKey (ruleType : String) (value : Prim) : String × Prim :=
  if ruleType = "min_value" then ("min", value)
  else if ruleType = "max_value" then ("max", value)
  else ("value", value)

/-- String rendering of a numeric primitive for pattern ids, approximating
Python str() (float formatting is approximated by the exact rational). -/
def Prim.render : Prim → String
  | .str s => s
  | .int n => toString n
  | .rat q => toString q
  | .bool b => if b then "True" else "False"

/-- `AdvancedPatternDiscovery._discover_business_rule_patterns`: group the
business-rule constraints by rule sub-type, then numeric ones by value
key; keys with at least two constraints become one pattern each. -/
def discoverBusinessRulePatterns (businessConstraints : List LearnedConstraint) :
    List CrossEndpointPattern :=
  let ruleTypeGroups :=
    businessConstraints.foldl
      (fun acc c =>
        match c.businessRule with
        | some r => dictAppend r.ruleType c acc
        | none => acc)
      []
  ruleTypeGroups.flatMap fun g =>
    let ruleType := g.1
    let constraints := g.2
    if constraints.length ≥ 2 then
      let valuePatterns :=
        constraints.foldl
          (fun acc c =>
            match c.businessRule with
            | some r =>
              if r.constraintValue.isNumeric then
                dictAppend (businessRangeKey ruleType r.constraintValue) c acc
              else acc
            | none => acc)
          []
      valuePatterns.filterMap fun vg =>
        let patternKey := vg.1
        let patternConstraints := vg.2
        if patternConstraints.length ≥ 2 then
          let endpoints := patternConstraints.map (·.endpointPath)
          let keyString := patternKey.1 ++ "_" ++ patternKey.2.render
          some
            { patternId := "business_rule_" ++ ruleType ++ "_" ++ keyString
              patternType := "business_rule"
              patternDescription := "Business rule pattern '" ++ ruleType ++
                "' with '" ++ keyString ++ "' appears across " ++
                toString endpoints.length ++ " endpoints"
              scope := .domainWide
              confidence := meanConfidence patternConstraints
              supportingConstraints := supportingIds patternConstraints
              affectedEndpoints := pySet endpoints }
        else none
    else []

/-- The rate-limit grouping key
`f"{max_requests}_{time_window_seconds}_{scope}"`. -/
def rateLimitKey (r : RateLimitRule) : String :=
  toString r.maxRequests ++ "_" ++ toString r.timeWindowSeconds ++ "_" ++ r.scope

/-- One rate-limiting pattern of `_discover_operational_patterns`, built
from the three unpacked key parts. -/
def mkRateLimitPattern (patternKey maxRequests timeWindow scopeStr : String)
    (constraints : List LearnedConstraint) : CrossEndpointPattern :=
  let endpoints := constraints.map (·.endpointPath)
  { patternId := "rate_limit_" ++ patternKey
    patternType := "rate_limiting"
    patternDescription := "Rate limiting pattern (" ++ maxRequests ++
      " requests per " ++ timeWindow ++ "s, " ++ scopeStr ++
      ") appears across " ++ toString endpoints.length ++ " endpoints"
    scope := if scopeStr = "global" then .global else .domainWide
    confidence := meanConfidence constraints
    supportingConstraints := supportingIds constraints
    affectedEndpoints := pySet endpoints }

/-- Loop of `_discover_operational_patterns` over the key groups.  The
unpacking `max_requests, time_window, scope = pattern_key.split('_')`
needs exactly three parts and raises `ValueError` otherwise (which happens
for every scope containing an underscore, such as the default
`"per_user"`); the raise is modelled as the `Except.error` branch. -/
def operationalLoop : List (String × List LearnedConstraint) →
    Except String (List CrossEndpointPattern)
  | [] => .ok []
  | g :: rest =>
    let patternKey := g.1
    let constraints := g.2
    if constraints.length ≥ 2 then
      match pySplit '_' patternKey with
      | [maxRequests, timeWindow, scopeStr] => do
        let tail ← operationalLoop rest
        .ok (mkRateLimitPattern patternKey maxRequests timeWindow scopeStr constraints :: tail)
      | _ => .error "ValueError: unpacking pattern_key.split"
    else operationalLoop rest

/-- `AdvancedPatternDiscovery._discover_operational_patterns`. -/
def discoverOperationalPatterns (rateLimitingConstraints : List LearnedConstraint) :
    Except String (List CrossEndpointPattern) :=
  let rateLimitAnalysis :=
    rateLimitingConstraints.foldl
      (fun acc c =>
        match c.rateLimitRule with
        | some r => dictAppend (rateLimitKey r) c acc
        | none => acc)
      []
  operationalLoop rateLimitAnalysis

/-- `AdvancedPatternDiscovery.analyze_constraint_patterns`: group the
repository's constraints, run the four discovery passes and concatenate
their patterns in source order.  A `ValueError` escaping the operational
pass propagates out of the whole analysis. -/
def analyzeConstraintPatterns (constraints : List (String × LearnedConstraint)) :
    Except String (List CrossEndpointPattern) := do
  let cs := constraints.map Prod.snd
  let byParameter := groupByParameter cs
  let mutualExclusivityGroup := cs.filter fun c =>
    c.constraintType = ConstraintType.mutualExclusivity
  let businessRulesGroup := cs.filter fun c =>
    c.constraintType = ConstraintType.businessRule
  let rateLimitingGroup := cs.filter fun c =>
    c.constraintType = ConstraintType.rateLimiting
  let paramPatterns := discoverParameterPatterns byParameter
  let validationPatterns := discoverValidationPatterns mutualExclusivityGroup
  let businessPatterns := discoverBusinessRulePatterns businessRulesGroup
  let operationalPatterns ← discoverOperationalPatterns rateLimitingGroup
  return paramPatterns ++ validationPatterns ++ businessPatterns ++ operationalPatterns

/-- The domain heuristic of `_calculate_pattern_applicability`:
`ep.split('/')[1] if '/' in ep else ep`. -/
def domainOf (ep : String) : String :=
  if '/' ∈ ep.toList then (pySplit '/' ep).getD 1 "" else ep

/-- `AdvancedPatternDiscovery._calculate_pattern_applicability`. -/
def calculatePatternApplicability (pat : CrossEndpointPattern)
    (targetEndpoint : String) (targetParameters : List String) : ℚ :=
  let score : ℚ := 0
  let score :=
    match pat.scope with
    | .global => score + 0.8
    | .domainWide =>
      let patternDomains := pat.affectedEndpoints.map domainOf
      let targetDomain := domainOf targetEndpoint
      if targetDomain ∈ patternDomains then score + 0.7 else score + 0.3
    | .parameterBased =>
      match pat.paramName with
      | some name => if name ∈ targetParameters then score + 0.9 else score + 0.2
      | none => score
    | _ => score
  min score 1

/-- One prediction dict of `generate_pattern_predictions` (the
`suggested_constraints` payload is elided: no claim constrains it). -/
structure PatternPrediction where
  patternId : String
  patternType : String
  description : String
  applicabilityScore : ℚ
  confidence : ℚ
deriving DecidableEq, Repr

/-- The loop body of `generate_pattern_predictions`: a pattern becomes a
prediction exactly when its applicability exceeds 0.3. -/
def predictionOf (targetEndpoint : String) (targetParameters : List String)
    (pat : CrossEndpointPattern) : Option PatternPrediction :=
  let applicabilityScore := calculatePatternApplicability pat targetEndpoint targetParameters
  if applicabilityScore > 0.3 then
    some
      { patternId := pat.patternId
        patternType := pat.patternType
        description := pat.patternDescription
        applicabilityScore := applicabilityScore
        confidence := pat.confidence * applicabilityScore }
  else none

/-- Descending-confidence order used by
`predictions.sort(key=lambda x: x['confidence'], reverse=True)`. -/
def predGE (x y : PatternPrediction) : Prop :=
  y.confidence ≤ x.confidence

instance : DecidableRel predGE := fun x y =>
  inferInstanceAs (Decidable (y.confidence ≤ x.confidence))

instance : IsTotal PatternPrediction predGE :=
  ⟨fun x y => le_total y.confidence x.confidence⟩

instance : IsTrans PatternPrediction predGE :=
  ⟨fun _ _ _ h h' => le_trans h' h⟩

/-- `AdvancedPatternDiscovery.generate_pattern_predictions` over the
stored patterns in insertion order. -/
def generatePatternPredictions (patterns : List CrossEndpointPattern)
    (targetEndpoint : String) (targetParameters : List String) :
    List PatternPrediction :=
  (patterns.filterMap (predictionOf targetEndpoint targetParameters)).insertionSort predGE

/-- The first path segment of an endpoint as the specification phrases it:
the piece between a leading slash and the next slash, or the leading
piece before the first slash when there is no leading slash. -/
def firstPathSegment (ep : String) : String :=
  if pyStartsWith ep "/" then
    String.mk ((ep.toList.drop 1).takeWhile fun c => ¬ c = '/')
  else
    String.mk (ep.toList.takeWhile fun c => ¬ c = '/')

/-! ## Heap model of the specification object and `get_enhanced_schema`

`get_enhanced_schema` copies the top-level spec dict shallowly
(`self.base_spec.copy()`) and then the apply helpers mutate nested dicts
and lists in place.  To make that aliasing observable, the spec is a graph
of nodes in an explicit heap; `base_spec` is an address into it.  Python
type errors inside `_apply_constraint_to_spec` are swallowed by its
`try/except`; such shape mismatches are modelled as leaving the heap
unchanged from that point on. -/

/-- Heap address of one Python object (dict, list or primitive). -/
abbrev Addr := Nat

/-- One Python object: a dict with insertion-ordered string keys, a list,
or a primitive value. -/
inductive HNode where
  | obj (fields : List (String × Addr))
  | arr (elems : List Addr)
  | prim (p : Prim)
deriving DecidableEq, Repr

/-- A heap of allocated nodes plus the next fresh address. -/
structure Heap where
  nodes : List (Addr × HNode) := []
  next : Addr := 0
deriving DecidableEq, Repr

/-- Read the node at an address. -/
def hGet (h : Heap) (a : Addr) : Option HNode :=
  dictGet a h.nodes

/-- Overwrite the node at an address. -/
def hSet (h : Heap) (a : Addr) (n : HNode) : Heap :=
  { h with nodes := dictInsert a n h.nodes }

/-- Allocate a fresh node. -/
def hAlloc (h : Heap) (n : HNode) : Heap × Addr :=
  ({ nodes := dictInsert h.next n h.nodes, next := h.next + 1 }, h.next)

/-- The fields of the dict node at an address, if it is a dict. -/
def objFields (h : Heap) (a : Addr) : Option (List (String × Addr)) :=
  match hGet h a with
  | some (.obj fields) => some fields
  | _ => none

/-- Python `d[k]` / `k in d` on the dict node at an address. -/
def objGetKey (h : Heap) (a : Addr) (k : String) : Option Addr :=
  match objFields h a with
  | some fields => dictGet k fields
  | none => none

/-- Python `d[k] = v` on the dict node at an address (no-op on a
non-dict, whose type error the caller's except swallows). -/
def objSetKey (h : Heap) (a : Addr) (k : String) (v : Addr) : Heap :=
  match hGet h a with
  | some (.obj fields) => hSet h a (.obj (dictInsert k v fields))
  | _ => h

/-- Python `d.get(k, {})`: the stored address, or a freshly allocated
empty dict not linked into `d`. -/
def objGetKeyOrEmpty (h : Heap) (a : Addr) (k : String) : Heap × Addr :=
  match objGetKey h a k with
  | some b => (h, b)
  | none => hAlloc h (.obj [])

/-- Python `value in pyList` for a list of primitives: membership by
value equality. -/
def arrHasPrim (h : Heap) (elems : List Addr) (p : Prim) : Bool :=
  elems.any fun e =>
    match hGet h e with
    | some (.prim p') => p' = p
    | _ => false

/-- Python `theList.append(x)` on the list node at an address (no-op on a
non-list, whose type error the caller's except swallows). -/
def arrAppend (h : Heap) (a : Addr) (x : Addr) : Heap :=
  match hGet h a with
  | some (.arr elems) => hSet h a (.arr (elems ++ [x]))
  | _ => h

/-- Allocate a dict of primitive values. -/
def allocPrimObj (h : Heap) (kvs : List (String × Prim)) : Heap × Addr :=
  let step := kvs.foldl
    (fun (acc : Heap × List (String × Addr)) kv =>
      let (h', a) := hAlloc acc.1 (.prim kv.2)
      (h', acc.2 ++ [(kv.1, a)]))
    (h, [])
  hAlloc step.1 (.obj step.2)

/-- Allocate a list of primitive string values. -/
def allocStrArr (h : Heap) (ss : List String) : Heap × Addr :=
  let step := ss.foldl
    (fun (acc : Heap × List Addr) s =>
      let (h', a) := hAlloc acc.1 (.prim (.str s))
      (h', acc.2 ++ [a]))
    (h, [])
  hAlloc step.1 (.arr step.2)

/-- The `if key not in operation: operation[key] = []` idiom of the
x-extension appliers. -/
def ensureKeyArr (h : Heap) (op : Addr) (key : String) : Heap :=
  match objGetKey h op key with
  | some _ => h
  | none =>
    let (h', e) := hAlloc h (.arr [])
    objSetKey h' op key e

/-- `_apply_required_field_constraint`: ensure the JSON request schema
lists the affected parameter as required, creating the `required` list in
place when missing. -/
def applyRequiredFieldConstraint (h : Heap) (op : Addr) (c : LearnedConstraint) : Heap :=
  match objGetKey h op "requestBody" with
  | none => h
  | some requestBody =>
    let (h, content) := objGetKeyOrEmpty h requestBody "content"
    match objGetKey h content "application/json" with
    | none => h
    | some appJson =>
      let (h, schema) := objGetKeyOrEmpty h appJson "schema"
      let h :=
        match objGetKey h schema "required" with
        | some _ => h
        | none =>
          let (h', e) := hAlloc h (.arr [])
          objSetKey h' schema "required" e
      match objGetKey h schema "required" with
      | none => h
      | some requiredAddr =>
        match hGet h requiredAddr with
        | some (.arr elems) =>
          if arrHasPrim h elems (.str c.affectedParameter) then h
          else
            let (h', pa) := hAlloc h (.prim (.str c.affectedParameter))
            hSet h' requiredAddr (.arr (elems ++ [pa]))
        | _ => h

/-- `_apply_format_constraint`: set the `format` of the affected
parameter's property when the formal constraint carries a truthy one. -/
def applyFormatConstraint (h : Heap) (op : Addr) (c : LearnedConstraint) : Heap :=
  match objGetKey h op "requestBody" with
  | none => h
  | some requestBody =>
    let (h, content) := objGetKeyOrEmpty h requestBody "content"
    match objGetKey h content "application/json" with
    | none => h
    | some appJson =>
      let (h, schema) := objGetKeyOrEmpty h appJson "schema"
      let (h, properties) := objGetKeyOrEmpty h schema "properties"
      match objGetKey h properties c.affectedParameter with
      | none => h
      | some propAddr =>
        match dictGet "format" c.formalConstraint with
        | some formatRule =>
          if formatRule = "" then h
          else
            let (h', fa) := hAlloc h (.prim (.str formatRule))
            objSetKey h' propAddr "format" fa
        | none => h

/-- `_apply_conditional_constraint`: append the rule to the operation's
`x-conditional-requirements` list. -/
def applyConditionalConstraint (h : Heap) (op : Addr) (c : LearnedConstraint) : Heap :=
  match c.conditionalRule with
  | none => h
  | some r =>
    let h := ensureKeyArr h op "x-conditional-requirements"
    let (h, condObj) := allocPrimObj h
      [("field", .str r.conditionField), ("operator", .str r.conditionOperator),
        ("value", r.conditionValue)]
    let (h, reqObj) := allocPrimObj h
      [("field", .str r.requiredField), ("required", .bool true)]
    let (h, entry) := hAlloc h (.obj [("condition", condObj), ("requirement", reqObj)])
    match objGetKey h op "x-conditional-requirements" with
    | some a => arrAppend h a entry
    | none => h

/-- `_apply_exclusivity_constraint`: append the rule to the operation's
`x-mutual-exclusivity` list. -/
def applyExclusivityConstraint (h : Heap) (op : Addr) (c : LearnedConstraint) : Heap :=
  match c.exclusivityRule with
  | none => h
  | some r =>
    let h := ensureKeyArr h op "x-mutual-exclusivity"
    let (h, fieldsArr) := allocStrArr h r.exclusiveFields
    let (h, minA) := hAlloc h (.prim (.int r.minRequired))
    let (h, maxA) := hAlloc h (.prim (.int r.maxAllowed))
    let (h, entry) := hAlloc h
      (.obj [("exclusive_fields", fieldsArr), ("min_required", minA), ("max_allowed", maxA)])
    match objGetKey h op "x-mutual-exclusivity" with
    | some a => arrAppend h a entry
    | none => h

/-- `_apply_format_dependency_constraint`: append the rule to the
operation's `x-format-dependencies` list. -/
def applyFormatDependencyConstraint (h : Heap) (op : Addr) (c : LearnedConstraint) : Heap :=
  match c.formatDependency with
  | none => h
  | some r =>
    let h := ensureKeyArr h op "x-format-dependencies"
    let (h, entry) := allocPrimObj h
      [("dependent_field", .str r.dependentField),
        ("dependency_field", .str r.dependencyField),
        ("dependency_value", r.dependencyValue),
        ("required_format", .str r.requiredFormat)]
    match objGetKey h op "x-format-dependencies" with
    | some a => arrAppend h a entry
    | none => h

/-- `_apply_business_rule_constraint`: append the rule to the operation's
`x-business-rules` list. -/
def applyBusinessRuleConstraint (h : Heap) (op : Addr) (c : LearnedConstraint) : Heap :=
  match c.businessRule with
  | none => h
  | some r =>
    let h := ensureKeyArr h op "x-business-rules"
    let (h, entry) := allocPrimObj h
      [("field", .str r.field), ("rule_type", .str r.ruleType),
        ("constraint_value", r.constraintValue), ("error_message", .str r.errorMessage)]
    match objGetKey h op "x-business-rules" with
    | some a => arrAppend h a entry
    | none => h

/-- The HTTP methods `_apply_constraint_to_spec` visits. -/
def httpMethods : List String :=
  ["get", "post", "put", "patch", "delete"]

/-- The per-method dispatch of `_apply_constraint_to_spec` on the
constraint type. -/
def applyToOperation (h : Heap) (op : Addr) (c : LearnedConstraint) : Heap :=
  match c.constraintType with
  | .requiredField => applyRequiredFieldConstraint h op c
  | .formatValidation => applyFormatConstraint h op c
  | .conditionalRequirement => applyConditionalConstraint h op c
  | .mutualExclusivity => applyExclusivityConstraint h op c
  | .formatDependency => applyFormatDependencyConstraint h op c
  | .businessRule => applyBusinessRuleConstraint h op c
  | _ => h

/-- `APIConstraintModel._apply_constraint_to_spec`: walk
`spec['paths'][endpoint_path]` and apply the constraint to every HTTP
method operation found there. -/
def applyConstraintToSpec (h : Heap) (spec : Addr) (c : LearnedConstraint) : Heap :=
  match objGetKey h spec "paths" with
  | none => h
  | some paths =>
    match objGetKey h paths c.endpointPath with
    | none => h
    | some endpointEntry =>
      match objFields h endpointEntry with
      | none => h
      | some methodFields =>
        methodFields.foldl
          (fun h' mf =>
            if mf.1 ∈ httpMethods then applyToOperation h' mf.2 c else h')
          h

/-- `APIConstraintModel.get_enhanced_schema`: shallow-copy the base spec,
ensure `x-learned-rules` on the copy, then apply every selected
constraint whose confidence exceeds 0.7.  `base` is the address of the
model's `base_spec` dict; returns the updated heap and the address of the
copy.  (If the base address does not hold a dict, `.copy()` would raise;
that unreachable branch returns the base unchanged.) -/
def getEnhancedSchema (m : APIConstraintModel) (h : Heap) (base : Addr)
    (endpointPath : Option String := none) : Heap × Addr :=
  match hGet h base with
  | some (.obj fields) =>
    let (h, enhanced) := hAlloc h (.obj fields)
    let h :=
      match dictGet "x-learned-rules" fields with
      | some _ => h
      | none =>
        let (h', e) := hAlloc h (.obj [])
        objSetKey h' enhanced "x-learned-rules" e
    let constraintsToApply :=
      match endpointPath with
      | some ep => (dictGet ep m.endpointRules).getD []
      | none => m.learnedConstraints.map Prod.fst
    let h := constraintsToApply.foldl
      (fun h' cid =>
        match dictGet cid m.learnedConstraints with
        | some c =>
          if c.confidenceScore > 0.7 then applyConstraintToSpec h' enhanced c else h'
        | none => h')
      h
    (h, enhanced)
  | _ => (h, base)

/-- Navigate a chain of dict keys from an address (observation helper for
stating what is reachable from the base spec). -/
def navPath (h : Heap) (a : Addr) : List String → Option Addr
  | [] => some a
  | k :: ks =>
    match objGetKey h a k with
    | some b => navPath h b ks
    | none => none

/-- Read primitive string nodes at a list of addresses (observation
helper). -/
def readPrimStrs (h : Heap) : List Addr → Option (List String)
  | [] => some []
  | e :: rest =>
    match hGet h e with
    | some (.prim (.str s)) =>
      match readPrimStrs h rest with
      | some l => some (s :: l)
      | none => none
    | _ => none

/-- Read a list node of primitive strings (observation helper). -/
def readStrArr (h : Heap) (a : Addr) : Option (List String) :=
  match hGet h a with
  | some (.arr elems) => readPrimStrs h elems
  | _ => none

/-! ## Concrete instances used by counterexamples and witnesses -/

/-- A plain required-field constraint on `/users` as the interpreter would
produce it (fresh tallies). -/
def cRequiredName : LearnedConstraint :=
  { constraintType := .requiredField
    affectedParameter := "name"
    endpointPath := "/users"
    ruleDescription := "name field is required"
    formalConstraint := []
    confidenceScore := 0.9 }

/-- The same constraint with publication-threshold-clearing confidence
0.8, used for the enhanced-schema evaluation. -/
def cRequiredName08 : LearnedConstraint :=
  { cRequiredName with confidenceScore := 0.8 }

/-- The empty constraint model. -/
def emptyModel : APIConstraintModel := {}

/-- The base OpenAPI spec
`{"paths": {"/users": {"post": {"requestBody": {"content":
{"application/json": {"schema": {}}}}}}}}` laid out in the heap with the
top-level dict at address 0. -/
def specHeap : Heap :=
  { nodes :=
      [(0, .obj [("paths", 1)]),
        (1, .obj [("/users", 2)]),
        (2, .obj [("post", 3)]),
        (3, .obj [("requestBody", 4)]),
        (4, .obj [("content", 5)]),
        (5, .obj [("application/json", 6)]),
        (6, .obj [("schema", 7)]),
        (7, .obj [])]
    next := 8 }

/-- The key chain from the base spec down to the request schema's
`required` list. -/
def requiredKeyPath : List String :=
  ["paths", "/users", "post", "requestBody", "content", "application/json",
    "schema", "required"]

/-- The scenario history of the confidence claims:
[S,S,S,S,F,S,F,F,S,F], oldest first. -/
def scenarioEvents : List Bool :=
  [true, true, true, true, false, true, false, false, true, false]

/-- A validated, learnable inferred rule as the LLM step would yield for a
connection-level failure text. -/
def ruleConnRefused : InferredRule :=
  { ruleDescription := "name field is required"
    constraintType := "required_field"
    affectedParameter := "name"
    endpointPath := "/users"
    formalConstraint := []
    confidence := 0.9 }

/-- The two-constraint repository of the parameter-pattern scenario:
`email` format validation on `/users` (0.9) and `/profiles` (0.75). -/
def emailUsers : LearnedConstraint :=
  { constraintType := .formatValidation
    affectedParameter := "email"
    endpointPath := "/users"
    ruleDescription := "email must be a valid email"
    formalConstraint := [("format", "email")]
    confidenceScore := 0.9 }

/-- The `/profiles` sibling of `emailUsers` with confidence 0.75. -/
def emailProfiles : LearnedConstraint :=
  { constraintType := .formatValidation
    affectedParameter := "email"
    endpointPath := "/profiles"
    ruleDescription := "email must be a valid email"
    formalConstraint := [("format", "email")]
    confidenceScore := 0.75 }

/-- The scenario repository as the constraint dict (insertion order:
`/users` first). -/
def scenarioRepo : List (String × LearnedConstraint) :=
  [(generateConstraintId emailUsers, emailUsers),
    (generateConstraintId emailProfiles, emailProfiles)]

/-- The single parameter-validation pattern the scenario discovery pass
emits. -/
def scenarioPattern : CrossEndpointPattern :=
  { patternId := "param_email_format_validation"
    patternType := "parameter_validation"
    patternDescription :=
      "Parameter 'email' consistently requires format_validation validation across multiple endpoints"
    scope := .parameterBased
    confidence := 0.75
    supportingConstraints := ["constraint_0", "constraint_1"]
    affectedEndpoints := ["/users", "/profiles"]
    paramName := some "email" }

/-- The one-constraint model state of the enhanced-schema evaluation:
`cRequiredName08` stored under its identity key. -/
def c2Model : APIConstraintModel :=
  { learnedConstraints := [("/users_name_required_field", cRequiredName08)]
    endpointRules := [("/users", ["/users_name_required_field"])]
    constraintsByType := [(.requiredField, ["/users_name_required_field"])] }

/-- The heap state after the shallow copy and the `x-learned-rules`
initialization inside `get_enhanced_schema` on `specHeap`: the copy at
address 8 shares every nested node with the base spec at address 0. -/
def c2CopyHeap : Heap :=
  { nodes :=
      [(0, .obj [("paths", 1)]),
        (1, .obj [("/users", 2)]),
        (2, .obj [("post", 3)]),
        (3, .obj [("requestBody", 4)]),
        (4, .obj [("content", 5)]),
        (5, .obj [("application/json", 6)]),
        (6, .obj [("schema", 7)]),
        (7, .obj []),
        (8, .obj [("paths", 1), ("x-learned-rules", 9)]),
        (9, .obj [])]
    next := 10 }

/-- A stored domain-wide pattern for the prediction witness. -/
def patDomain : CrossEndpointPattern :=
  { patternId := "exclusivity_email_phone_1_1"
    patternType := "mutual_exclusivity"
    patternDescription := "Mutual exclusivity pattern 'email_phone_1_1' appears across 2 endpoints"
    scope := .domainWide
    confidence := 0.825
    supportingConstraints := ["constraint_0", "constraint_1"]
    affectedEndpoints := ["/users", "/orders"] }

/-- A stored global-scope pattern for the prediction witness. -/
def patGlobal : CrossEndpointPattern :=
  { patternId := "rate_limit_100_60_global"
    patternType := "rate_limiting"
    patternDescription := "Rate limiting pattern (100 requests per 60s, global) appears across 2 endpoints"
    scope := .global
    confidence := 0.8
    supportingConstraints := ["constraint_0", "constraint_1"]
    affectedEndpoints := ["/users", "/orders"] }

/-! ## Dictionary lemmas -/

section DictLemmas

variable {κ α β : Type} [DecidableEq κ]

theorem dictGet_dictInsert_self (k : κ) (v : α) (d : List (κ × α)) :
    dictGet k (dictInsert k v d) = some v := by
  induction d with
  | nil => simp [dictInsert, dictGet]
  | cons e rest ih =>
    by_cases h : e.1 = k
    · simp [dictInsert, dictGet, h]
    · simp [dictInsert, dictGet, h, ih]

theorem keys_dictInsert (k : κ) (v : α) (d : List (κ × α)) :
    (dictInsert k v d).map Prod.fst =
      if k ∈ d.map Prod.fst then d.map Prod.fst else d.map Prod.fst ++ [k] := by
  induction d with
  | nil => simp [dictInsert]
  | cons e rest ih =>
    by_cases h : e.1 = k
    · simp [dictInsert, h]
    · have h' : ¬ k = e.1 := fun hk => h hk.symm
      simp only [dictInsert, if_neg h, List.map_cons, ih, List.mem_cons, h', false_or]
      by_cases hm : k ∈ rest.map Prod.fst <;> simp [hm, h']

theorem keys_dictInsert_nodup (k : κ) (v : α) (d : List (κ × α))
    (h : (d.map Prod.fst).Nodup) : ((dictInsert k v d).map Prod.fst).Nodup := by
  rw [keys_dictInsert]
  by_cases hm : k ∈ d.map Prod.fst
  · simpa [hm] using h
  · rw [if_neg hm]
    refine List.Nodup.append h (List.nodup_singleton k) ?_
    simpa using hm

theorem count_keys_dictInsert (k : κ) (v : α) (d : List (κ × α))
    (h : (d.map Prod.fst).Nodup) :
    ((dictInsert k v d).map Prod.fst).count k = 1 := by
  induction d with
  | nil => simp [dictInsert]
  | cons e rest ih =>
    rw [List.map_cons, List.nodup_cons] at h
    by_cases he : e.1 = k
    · have hk : k ∉ rest.map Prod.fst := he ▸ h.1
      simp [dictInsert, he, List.count_cons, List.count_eq_zero.mpr hk]
    · have hne : ¬ e.1 = k := he
      simp [dictInsert, he, List.count_cons, hne, ih h.2]

theorem dictGet_dictAppend_self (k : κ) (x : β) (d : List (κ × List β)) :
    dictGet k (dictAppend k x d) = some ((dictGet k d).getD [] ++ [x]) := by
  induction d with
  | nil => simp [dictAppend, dictGet]
  | cons e rest ih =>
    by_cases h : e.1 = k
    · simp [dictAppend, dictGet, h]
    · simp [dictAppend, dictGet, h, ih]

end DictLemmas

/-! ## C1: add_constraint called twice with an identical candidate -/

theorem updateSpecializedIndexes_learnedConstraints (cid : String)
    (c : LearnedConstraint) (m : APIConstraintModel) :
    (updateSpecializedIndexes cid c m).learnedConstraints = m.learnedConstraints := by
  unfold updateSpecializedIndexes
  cases c.conditionalRule <;> cases c.formatDependency <;> cases c.businessRule <;> rfl

theorem updateSpecializedIndexes_endpointRules (cid : String)
    (c : LearnedConstraint) (m : APIConstraintModel) :
    (updateSpecializedIndexes cid c m).endpointRules = m.endpointRules := by
  unfold updateSpecializedIndexes
  cases c.conditionalRule <;> cases c.formatDependency <;> cases c.businessRule <;> rfl

theorem addConstraint_fst (m : APIConstraintModel) (c : LearnedConstraint) :
    (addConstraint m c).1 = generateConstraintId c := rfl

theorem addConstraint_learnedConstraints (m : APIConstraintModel) (c : LearnedConstraint) :
    (addConstraint m c).2.learnedConstraints =
      dictInsert (generateConstraintId c) c m.learnedConstraints := by
  unfold addConstraint
  rw [updateSpecializedIndexes_learnedConstraints]

theorem addConstraint_endpointRules (m : APIConstraintModel) (c : LearnedConstraint) :
    (addConstraint m c).2.endpointRules =
      dictAppend c.endpointPath (generateConstraintId c) m.endpointRules := by
  unfold addConstraint
  rw [updateSpecializedIndexes_endpointRules]

/-- C1 counterexample: the claim, instantiated at a fresh required-field
constraint added twice to the empty model, asserts that the second call
increments the stored constraint's success tally (a new validation
success would make it 1); the code instead stores the candidate
unchanged, so the stored tally stays at zero. -/
theorem c1_counterexample :
    ¬ ((dictGet (addConstraint emptyModel cRequiredName).1
        ((addConstraint (addConstraint emptyModel cRequiredName).2 cRequiredName).2).learnedConstraints).map
        (fun c => c.successCount) = some (cRequiredName.successCount + 1)) := by
  decide

/-- C1 (amended): calling `add_constraint` a second time with a
structurally identical candidate returns the same identity key, leaves a
single entry under that key in the constraint map — but that entry is the
candidate stored unchanged (the success tally is not incremented) — and
appends the identity key to the endpoint index a second time. -/
theorem c1_addConstraint_twice (m : APIConstraintModel) (c : LearnedConstraint)
    (hnd : (m.learnedConstraints.map Prod.fst).Nodup) :
    (addConstraint (addConstraint m c).2 c).1 = (addConstraint m c).1 ∧
    dictGet (addConstraint m c).1
        ((addConstraint (addConstraint m c).2 c).2).learnedConstraints = some c ∧
    (((addConstraint (addConstraint m c).2 c).2).learnedConstraints.map Prod.fst).count
        (addConstraint m c).1 = 1 ∧
    dictGet c.endpointPath ((addConstraint (addConstraint m c).2 c).2).endpointRules =
      some ((dictGet c.endpointPath m.endpointRules).getD [] ++
        [(addConstraint m c).1, (addConstraint m c).1]) := by
  refine ⟨rfl, ?_, ?_, ?_⟩
  · rw [addConstraint_fst, addConstraint_learnedConstraints,
      addConstraint_learnedConstraints]
    exact dictGet_dictInsert_self _ _ _
  · rw [addConstraint_fst, addConstraint_learnedConstraints,
      addConstraint_learnedConstraints]
    exact count_keys_dictInsert _ _ _ (keys_dictInsert_nodup _ _ _ hnd)
  · rw [addConstraint_fst, addConstraint_endpointRules, addConstraint_endpointRules,
      dictGet_dictAppend_self, dictGet_dictAppend_self]
    simp

/-- C1 witness: the amended statement evaluated on the empty model and a
concrete constraint. -/
theorem c1_addConstraint_twice_witness :
    (addConstraint (addConstraint emptyModel cRequiredName).2 cRequiredName).1 =
        (addConstraint emptyModel cRequiredName).1 ∧
    dictGet (addConstraint emptyModel cRequiredName).1
        ((addConstraint (addConstraint emptyModel cRequiredName).2 cRequiredName).2).learnedConstraints =
        some cRequiredName ∧
    (((addConstraint (addConstraint emptyModel cRequiredName).2 cRequiredName).2).learnedConstraints.map
        Prod.fst).count (addConstraint emptyModel cRequiredName).1 = 1 ∧
    dictGet cRequiredName.endpointPath
        ((addConstraint (addConstraint emptyModel cRequiredName).2 cRequiredName).2).endpointRules =
      some ((dictGet cRequiredName.endpointPath emptyModel.endpointRules).getD [] ++
        [(addConstraint emptyModel cRequiredName).1, (addConstraint emptyModel cRequiredName).1]) :=
  c1_addConstraint_twice emptyModel cRequiredName (by decide)

/-! ## C10: the related-constraints query -/

theorem relatedOne_eq_replicate (fieldName : String) (c : LearnedConstraint) :
    relatedOne fieldName c = List.replicate (relCount fieldName c) c := by
  unfold relatedOne relCount
  cases relDirect fieldName c <;> cases relConditional fieldName c <;>
    cases relFormat fieldName c <;> cases relExclusivity fieldName c <;>
    simp [List.replicate_succ]

theorem relCount_pos_iff (fieldName : String) (c : LearnedConstraint) :
    0 < relCount fieldName c ↔
      (relDirect fieldName c = true ∨ relConditional fieldName c = true ∨
        relFormat fieldName c = true ∨ relExclusivity fieldName c = true) := by
  unfold relCount
  cases relDirect fieldName c <;> cases relConditional fieldName c <;>
    cases relFormat fieldName c <;> cases relExclusivity fieldName c <;> simp

theorem getRelatedLoop_eq_flatMap (fieldName : String) (endpointPath : Option String)
    (entries : List (String × LearnedConstraint)) :
    getRelatedLoop fieldName endpointPath entries =
      entries.flatMap (fun e =>
        if relEndpointOk endpointPath e.2 then
          List.replicate (relCount fieldName e.2) e.2
        else []) := by
  induction entries with
  | nil => rfl
  | cons e rest ih =>
    cases he : relEndpointOk endpointPath e.2 <;>
      simp [getRelatedLoop, he, ih, relatedOne_eq_replicate]

theorem mem_getRelatedLoop_iff (fieldName : String) (endpointPath : Option String)
    (entries : List (String × LearnedConstraint)) (c : LearnedConstraint) :
    c ∈ getRelatedLoop fieldName endpointPath entries ↔
      (∃ cid, (cid, c) ∈ entries) ∧ relEndpointOk endpointPath c = true ∧
        0 < relCount fieldName c := by
  rw [getRelatedLoop_eq_flatMap]
  constructor
  · intro hmem
    rcases List.mem_flatMap.mp hmem with ⟨e, he, hc⟩
    rcases hok : relEndpointOk endpointPath e.2 with _ | _
    · rw [if_neg (by simp [hok])] at hc
      exact absurd hc (List.not_mem_nil c)
    · rw [if_pos hok] at hc
      rcases List.eq_of_mem_replicate hc with rfl
      refine ⟨⟨e.1, by simpa using he⟩, hok, ?_⟩
      rcases Nat.eq_zero_or_pos (relCount fieldName e.2) with hz | hp
      · rw [hz] at hc
        exact absurd hc (List.not_mem_nil _)
      · exact hp
  · rintro ⟨⟨cid, hcid⟩, hok, hpos⟩
    refine List.mem_flatMap.mpr ⟨(cid, c), hcid, ?_⟩
    rw [if_pos hok]
    exact List.mem_replicate.mpr ⟨Nat.pos_iff_ne_zero.mp hpos, rfl⟩

/-- C10: a constraint appears in the result of `get_related_constraints`
exactly when it passes the endpoint filter and the field is its affected
parameter, a condition or required field of its conditional rule, a
dependent or dependency field of its format dependency, or a member of
its mutual-exclusivity field set; and the result lists each stored entry
once per matching relationship (so a constraint matching several
relationship types appears several times). -/
theorem c10_getRelatedConstraints (m : APIConstraintModel) (fieldName : String)
    (endpointPath : Option String) :
    (∀ c : LearnedConstraint,
      c ∈ getRelatedConstraints m fieldName endpointPath ↔
        (∃ cid, (cid, c) ∈ m.learnedConstraints) ∧
          relEndpointOk endpointPath c = true ∧
          (relDirect fieldName c = true ∨ relConditional fieldName c = true ∨
            relFormat fieldName c = true ∨ relExclusivity fieldName c = true)) ∧
    getRelatedConstraints m fieldName endpointPath =
      m.learnedConstraints.flatMap (fun e =>
        if relEndpointOk endpointPath e.2 then
          List.replicate (relCount fieldName e.2) e.2
        else []) := by
  constructor
  · intro c
    rw [getRelatedConstraints, mem_getRelatedLoop_iff, relCount_pos_iff]
  · exact getRelatedLoop_eq_flatMap fieldName endpointPath m.learnedConstraints

/-! ## C9: convergence check and loop termination -/

theorem hasConverged_iff (attempts : List (Option LearnedConstraint)) :
    hasConverged attempts 3 = true ↔
      (3 ≤ attempts.length ∧
        ∀ o ∈ attempts.drop (attempts.length - 3), o = none) := by
  unfold hasConverged
  by_cases hl : attempts.length < 3
  · simp [hl, Nat.not_le.mpr hl]
  · simp only [if_neg hl, decide_eq_true_eq, Nat.le_zero, List.countP_eq_zero]
    constructor
    · intro h
      refine ⟨Nat.le_of_not_lt hl, fun o ho => ?_⟩
      have := h o ho
      simpa using this
    · intro h o ho
      simp [h.2 o ho]

theorem learningLoopAux_take (rest : List (Option LearnedConstraint)) :
    ∀ acc, ∃ n, n ≤ rest.length ∧
      (learningLoopAux acc rest).1 = acc ++ rest.take n := by
  induction rest with
  | nil => intro acc; exact ⟨0, by simp, by simp [learningLoopAux]⟩
  | cons o rest ih =>
    intro acc
    by_cases h : hasConverged (acc ++ [o]) 3
    · exact ⟨1, by simp, by simp [learningLoopAux, h]⟩
    · rcases ih (acc ++ [o]) with ⟨n, hn, heq⟩
      refine ⟨n + 1, by simpa using hn, ?_⟩
      simp only [learningLoopAux, if_neg h, heq, List.take_succ_cons, List.append_assoc,
        List.singleton_append]

theorem learningLoopAux_flag (rest : List (Option LearnedConstraint)) :
    ∀ acc, hasConverged acc 3 = false →
      (learningLoopAux acc rest).2 = hasConverged (learningLoopAux acc rest).1 3 := by
  induction rest with
  | nil => intro acc hacc; simpa [learningLoopAux] using hacc.symm
  | cons o rest ih =>
    intro acc hacc
    by_cases h : hasConverged (acc ++ [o]) 3
    · simp [learningLoopAux, h]
    · simpa [learningLoopAux, h] using ih (acc ++ [o]) (by simpa using h)

theorem learningLoopAux_minimal (rest : List (Option LearnedConstraint)) :
    ∀ acc, (∀ k, k ≤ acc.length → hasConverged (acc.take k) 3 = false) →
      ∀ k, k < (learningLoopAux acc rest).1.length →
        hasConverged ((learningLoopAux acc rest).1.take k) 3 = false := by
  induction rest with
  | nil =>
    intro acc hacc k hk
    exact hacc k (Nat.le_of_lt (by simpa [learningLoopAux] using hk))
  | cons o rest ih =>
    intro acc hacc
    have htake : ∀ k, k ≤ acc.length → (acc ++ [o]).take k = acc.take k := by
      intro k hk
      rw [List.take_append_of_le_length hk]
    by_cases h : hasConverged (acc ++ [o]) 3
    · intro k hk
      simp only [learningLoopAux, if_pos h] at hk ⊢
      have hk' : k ≤ acc.length := by
        have : k < acc.length + 1 := by simpa using hk
        exact Nat.lt_succ_iff.mp this
      rw [htake k hk']
      exact hacc k hk'
    · intro k hk
      simp only [learningLoopAux, if_neg h] at hk ⊢
      refine ih (acc ++ [o]) ?_ k hk
      intro k' hk'
      rcases Nat.lt_or_ge k' (acc.length + 1) with hlt | hge
      · rcases Nat.lt_succ_iff.mp hlt with hle
        rw [htake k' hle]
        exact hacc k' hle
      · have hk'' : k' = acc.length + 1 := by
          simpa using Nat.le_antisymm (by simpa using hk') hge
        rw [hk'']
        rw [List.take_of_length_le (by simp)]
        simpa using h

theorem learningLoopAux_exhaust (rest : List (Option LearnedConstraint)) :
    ∀ acc, (learningLoopAux acc rest).2 = false →
      (learningLoopAux acc rest).1 = acc ++ rest := by
  induction rest with
  | nil => intro acc _; simp [learningLoopAux]
  | cons o rest ih =>
    intro acc hfl
    by_cases h : hasConverged (acc ++ [o]) 3
    · simp [learningLoopAux, h] at hfl
    · simp only [learningLoopAux, if_neg h] at hfl ⊢
      rw [ih (acc ++ [o]) hfl]
      simp

/-- C9: `has_converged` holds exactly when at least `window_size = 3`
attempts are recorded and none of the last 3 learned a constraint, and
the learning loop records a prefix of the would-be attempt outcomes,
reports convergence exactly when the recorded attempts satisfy
`has_converged`, stops at the first such point (no earlier prefix
converges), and only stops early when convergence was reported. -/
theorem c9_convergence :
    (∀ attempts : List (Option LearnedConstraint),
      hasConverged attempts 3 = true ↔
        (3 ≤ attempts.length ∧
          ∀ o ∈ attempts.drop (attempts.length - 3), o = none)) ∧
    (∀ outcomes : List (Option LearnedConstraint),
      ∃ n, n ≤ outcomes.length ∧ (runLearningLoop outcomes).1 = outcomes.take n) ∧
    (∀ outcomes : List (Option LearnedConstraint),
      (runLearningLoop outcomes).2 = hasConverged (runLearningLoop outcomes).1 3) ∧
    (∀ outcomes : List (Option LearnedConstraint),
      ∀ k, k < (runLearningLoop outcomes).1.length →
        hasConverged ((runLearningLoop outcomes).1.take k) 3 = false) ∧
    (∀ outcomes : List (Option LearnedConstraint),
      (runLearningLoop outcomes).2 = false → (runLearningLoop outcomes).1 = outcomes) := by
  refine ⟨hasConverged_iff, ?_, ?_, ?_, ?_⟩
  · intro outcomes
    rcases learningLoopAux_take outcomes [] with ⟨n, hn, heq⟩
    exact ⟨n, hn, by simpa [runLearningLoop] using heq⟩
  · intro outcomes
    exact learningLoopAux_flag outcomes [] rfl
  · intro outcomes
    refine learningLoopAux_minimal outcomes [] ?_
    intro k hk
    have : k = 0 := Nat.le_zero.mp (by simpa using hk)
    simp [this, hasConverged]
  · intro outcomes
    exact learningLoopAux_exhaust outcomes []

/-- C9 witness: the characterization and loop facts evaluated on a
concrete five-attempt outcome sequence converging after four attempts. -/
theorem c9_convergence_witness :
    hasConverged [some cRequiredName, none, none, none] 3 = true ∧
    (runLearningLoop [some cRequiredName, none, none, none, some cRequiredName]).1 =
      [some cRequiredName, none, none, none] ∧
    (runLearningLoop [some cRequiredName, none, none, none, some cRequiredName]).2 = true := by
  refine ⟨?_, by rfl, by rfl⟩
  exact (c9_convergence.1 [some cRequiredName, none, none, none]).mpr (by decide)

/-! ## C5: the 4xx guard of failure interpretation -/

/-- C5 counterexample: a connection-level failure from which no HTTP
status can be extracted (`status_code = None`) still produces a candidate
constraint when an error message was found and the LLM step yields a
learnable rule — the claim asserts such a failure returns no candidate. -/
theorem c5_counterexample :
    (interpretFailure none (some "Connection refused") (some ruleConnRefused)).isSome = true := by
  rfl

/-- C5 (amended): the interpretation step returns no candidate when a
non-empty status code was extracted that does not start with "4" (and
then the loop adds nothing to the model); conversely any returned
candidate comes from a failure whose extracted status was absent, empty,
or 4xx.  Connection-level failures without an extractable status are not
filtered. -/
theorem c5_interpretFailure_guard (statusCode errorMessage : Option String)
    (llmRule : Option InferredRule) (m : APIConstraintModel) :
    (∀ s, statusCode = some s → ¬ s = "" → ¬ pyStartsWith s "4" = true →
      interpretFailure statusCode errorMessage llmRule = none ∧
      failedAttemptUpdate m (interpretFailure statusCode errorMessage llmRule) = m) ∧
    (∀ c, interpretFailure statusCode errorMessage llmRule = some c →
      statusCode = none ∨ ∃ s, statusCode = some s ∧ (s = "" ∨ pyStartsWith s "4" = true)) := by
  constructor
  · rintro s rfl hne h4
    cases errorMessage with
    | none => exact ⟨rfl, rfl⟩
    | some msg =>
      have : interpretFailure (some s) (some msg) llmRule = none := by
        simp [interpretFailure, hne, h4]
      exact ⟨this, by simp [this, failedAttemptUpdate]⟩
  · intro c h
    cases hsc : statusCode with
    | none => exact Or.inl rfl
    | some s =>
      subst hsc
      refine Or.inr ⟨s, rfl, ?_⟩
      by_cases hne : s = ""
      · exact Or.inl hne
      · by_cases h4 : pyStartsWith s "4" = true
        · exact Or.inr h4
        · exfalso
          cases errorMessage with
          | none => simp [interpretFailure] at h
          | some msg => simp [interpretFailure, hne, h4] at h

/-- C5 witness: the amended guard evaluated on an extracted 500 status
with an error message and a learnable LLM rule. -/
theorem c5_interpretFailure_guard_witness :
    interpretFailure (some "500") (some "Internal Server Error") (some ruleConnRefused) = none ∧
    failedAttemptUpdate emptyModel
      (interpretFailure (some "500") (some "Internal Server Error") (some ruleConnRefused)) =
      emptyModel :=
  (c5_interpretFailure_guard (some "500") (some "Internal Server Error")
    (some ruleConnRefused) emptyModel).1 "500" rfl (by decide) (by decide)

/-! ## C3: the scenario history [S,S,S,S,F,S,F,F,S,F] -/

theorem historicalAccuracy_scenario (base : ℚ) :
    historicalAccuracy base scenarioEvents = 0.6 := by
  have h6 : countSuccess scenarioEvents = 6 := by decide
  have hlen : scenarioEvents.length = 10 := by decide
  simp only [historicalAccuracy, h6, hlen]
  norm_num

theorem recentPerformance_scenario (base : ℚ) :
    recentPerformance base scenarioEvents = 0.4 := by
  have hre : recentEvents scenarioEvents = [true, false, false, true, false] := by decide
  have hc : countSuccess [true, false, false, true, false] = 2 := by decide
  simp only [recentPerformance, hre, hc, List.length_cons, List.length_nil]
  norm_num

theorem trendDirection_scenario : trendDirection scenarioEvents = .declining := by
  have h1 : scenarioEvents.take (scenarioEvents.length / 2) =
      [true, true, true, true, false] := by decide
  have h2 : scenarioEvents.drop (scenarioEvents.length / 2) =
      [true, false, false, true, false] := by decide
  have hc1 : countSuccess [true, true, true, true, false] = 4 := by decide
  have hc2 : countSuccess [true, false, false, true, false] = 2 := by decide
  simp only [trendDirection, h1, h2, hc1, hc2, List.length_cons, List.length_nil,
    if_pos (show scenarioEvents.length ≥ 4 by decide)]
  norm_num

/-- C3 counterexample: on the retained history [S,S,S,S,F,S,F,F,S,F] the
claim asserts `calculate_evolved_confidence` reports historical accuracy
0.6, recent performance 0.6 and a declining trend; the reported recent
performance (accuracy over the last five events [S,F,F,S,F]) is in fact
0.4, refuting the conjunction. -/
theorem c3_counterexample :
    ¬ ((calculateEvolvedConfidence 0.9 (some scenarioEvents)).historicalAccuracy = 0.6 ∧
      (calculateEvolvedConfidence 0.9 (some scenarioEvents)).recentPerformance = 0.6 ∧
      (calculateEvolvedConfidence 0.9 (some scenarioEvents)).trendDirection = .declining) := by
  intro h
  have hr : recentPerformance 0.9 scenarioEvents = 0.6 := h.2.1
  rw [recentPerformance_scenario] at hr
  norm_num at hr

/-- C3 (amended): for any as-created confidence, on the retained history
[S,S,S,S,F,S,F,F,S,F] (oldest first, lookback window 10) the metrics
report historical accuracy 0.6, recent performance 0.4 (accuracy over the
last 5 events), and trend `declining` (first-half accuracy 0.8 against
second-half 0.4). -/
theorem c3_scenario_metrics (base : ℚ) :
    (calculateEvolvedConfidence base (some scenarioEvents)).historicalAccuracy = 0.6 ∧
    (calculateEvolvedConfidence base (some scenarioEvents)).recentPerformance = 0.4 ∧
    (calculateEvolvedConfidence base (some scenarioEvents)).trendDirection = .declining :=
  ⟨historicalAccuracy_scenario base, recentPerformance_scenario base,
    trendDirection_scenario⟩

/-! ## C6: the evolved confidence stays in [0,1] -/

theorem successRatio_mem (l : List Bool) :
    0 ≤ (countSuccess l : ℚ) / (l.length : ℚ) ∧
      (countSuccess l : ℚ) / (l.length : ℚ) ≤ 1 := by
  rcases Nat.eq_zero_or_pos l.length with hz | hp
  · simp [hz]
  · have hlen : (0 : ℚ) < (l.length : ℚ) := by exact_mod_cast hp
    have hle : (countSuccess l : ℚ) ≤ (l.length : ℚ) := by
      exact_mod_cast List.countP_le_length (l := l) (p := id)
    constructor
    · exact div_nonneg (by positivity) (le_of_lt hlen)
    · exact (div_le_one hlen).mpr hle

theorem historicalAccuracy_mem (base : ℚ) (events : List Bool)
    (h0 : 0 ≤ base) (h1 : base ≤ 1) :
    0 ≤ historicalAccuracy base events ∧ historicalAccuracy base events ≤ 1 := by
  unfold historicalAccuracy
  by_cases h : events.length > 0
  · simpa [h] using successRatio_mem events
  · simpa [h] using ⟨h0, h1⟩

theorem recentPerformance_mem (base : ℚ) (events : List Bool)
    (h0 : 0 ≤ base) (h1 : base ≤ 1) :
    0 ≤ recentPerformance base events ∧ recentPerformance base events ≤ 1 := by
  unfold recentPerformance
  by_cases h : (recentEvents events).length > 0
  · simpa [h] using successRatio_mem (recentEvents events)
  · simpa [h] using historicalAccuracy_mem base events h0 h1

theorem successRates_mem (events : List Bool) :
    ∀ x ∈ successRates events, 0 ≤ x ∧ x ≤ 1 := by
  intro x hx
  rcases List.mem_map.mp hx with ⟨i, _, hteq⟩
  exact hteq ▸ successRatio_mem ((events.drop i).take 3)

theorem sum_sq_dev_expand (xs : List ℚ) (m : ℚ) :
    (xs.map fun x => (x - m) ^ 2).sum =
      (xs.map fun x => x ^ 2).sum - 2 * m * xs.sum + (xs.length : ℚ) * m ^ 2 := by
  induction xs with
  | nil => simp
  | cons x xs ih =>
    simp only [List.map_cons, List.sum_cons, List.length_cons, ih]
    push_cast
    ring

theorem sum_sq_le_sum (xs : List ℚ) (hmem : ∀ x ∈ xs, 0 ≤ x ∧ x ≤ 1) :
    (xs.map fun x => x ^ 2).sum ≤ xs.sum := by
  induction xs with
  | nil => simp
  | cons x xs ih =>
    have hx := hmem x (List.mem_cons_self x xs)
    have hxs := ih fun y hy => hmem y (List.mem_cons_of_mem x hy)
    simp only [List.map_cons, List.sum_cons]
    nlinarith [hx.1, hx.2]

theorem sum_mem_bounds (xs : List ℚ) (hmem : ∀ x ∈ xs, 0 ≤ x ∧ x ≤ 1) :
    0 ≤ xs.sum ∧ xs.sum ≤ (xs.length : ℚ) := by
  induction xs with
  | nil => simp
  | cons x xs ih =>
    have hx := hmem x (List.mem_cons_self x xs)
    have hxs := ih fun y hy => hmem y (List.mem_cons_of_mem x hy)
    simp only [List.sum_cons, List.length_cons]
    push_cast
    constructor
    · linarith [hx.1, hxs.1]
    · linarith [hx.2, hxs.2]

theorem sampleVariance_mem (xs : List ℚ) (h2 : 2 ≤ xs.length)
    (hmem : ∀ x ∈ xs, 0 ≤ x ∧ x ≤ 1) :
    0 ≤ sampleVariance xs ∧ sampleVariance xs ≤ 1 := by
  have hn2 : (2 : ℚ) ≤ (xs.length : ℚ) := by exact_mod_cast h2
  have hn0 : (0 : ℚ) < (xs.length : ℚ) := by linarith
  have hn1 : (0 : ℚ) < (xs.length : ℚ) - 1 := by linarith
  have hS := sum_mem_bounds xs hmem
  have hT := sum_sq_le_sum xs hmem
  set n : ℚ := (xs.length : ℚ) with hn
  set S : ℚ := xs.sum with hSdef
  set T : ℚ := (xs.map fun x => x ^ 2).sum with hTdef
  set D : ℚ := (xs.map fun x => (x - S / n) ^ 2).sum with hDdef
  have hD0 : 0 ≤ D := by
    rw [hDdef]
    exact List.sum_nonneg fun y hy => by
      rcases List.mem_map.mp hy with ⟨x, _, rfl⟩
      positivity
  have hDn : D * n = T * n - S ^ 2 := by
    rw [hDdef, sum_sq_dev_expand, ← hn, ← hSdef, ← hTdef]
    field_simp
    ring
  have hvar : sampleVariance xs = D / (n - 1) := by
    rw [sampleVariance, ← hn, ← hSdef, ← hDdef]
  constructor
  · rw [hvar]
    exact div_nonneg hD0 (le_of_lt hn1)
  · rw [hvar]
    rw [div_le_one hn1]
    nlinarith [sq_nonneg (n - 2 * S), hS.1, hS.2, hT, hn0, hn2, hDn]

theorem stabilityScore_mem (events : List Bool) :
    0 ≤ stabilityScore events ∧ stabilityScore events ≤ 1 := by
  unfold stabilityScore
  by_cases h3 : events.length ≥ 3
  · by_cases hr : (successRates events).length > 1
    · have h2 : 2 ≤ (successRates events).length := hr
      have hvar := sampleVariance_mem (successRates events) h2 (successRates_mem events)
      have hs0 : (0 : ℝ) ≤ Real.sqrt (sampleVariance (successRates events)) :=
        Real.sqrt_nonneg _
      have hs1 : Real.sqrt ((sampleVariance (successRates events) : ℚ) : ℝ) ≤ 1 := by
        rw [Real.sqrt_le_one]
        exact_mod_cast hvar.2
      rw [if_pos h3, if_pos hr]
      constructor
      · linarith
      · linarith
    · rw [if_pos h3, if_neg hr]
      norm_num
  · rw [if_neg h3]
    norm_num

theorem blended_mem (base ha rp : ℚ)
    (hha : 0 ≤ ha ∧ ha ≤ 1) (hrp : 0 ≤ rp ∧ rp ≤ 1) :
    0 ≤ base * (1 - 0.4 - 0.4 - 0.2) + ha * 0.4 + rp * 0.4 ∧
      base * (1 - 0.4 - 0.4 - 0.2) + ha * 0.4 + rp * 0.4 ≤ 0.8 := by
  constructor
  · nlinarith [hha.1, hrp.1]
  · nlinarith [hha.2, hrp.2]

/-- C6: for an as-created confidence in [0,1] and any validation history,
the current confidence reported by `calculate_evolved_confidence` lies in
[0,1]: the weighted blend, the trend adjustment with its clamps, and the
stability multiplication never leave the unit interval. -/
theorem c6_confidence_bounds (base : ℚ) (history : Option (List Bool))
    (h0 : 0 ≤ base) (h1 : base ≤ 1) :
    0 ≤ (calculateEvolvedConfidence base history).currentConfidence ∧
      (calculateEvolvedConfidence base history).currentConfidence ≤ 1 := by
  cases history with
  | none =>
    constructor
    · show (0 : ℝ) ≤ (base : ℝ)
      exact_mod_cast h0
    · show (base : ℝ) ≤ 1
      exact_mod_cast h1
  | some events =>
    show 0 ≤ evolvedConfidence base events ∧ evolvedConfidence base events ≤ 1
    have hha := historicalAccuracy_mem base events h0 h1
    have hrp := recentPerformance_mem base events h0 h1
    have hbl := blended_mem base (historicalAccuracy base events)
      (recentPerformance base events) hha hrp
    have hst := stabilityScore_mem events
    unfold evolvedConfidence
    set blended : ℚ := base * (1 - 0.4 - 0.4 - 0.2) +
      historicalAccuracy base events * 0.4 +
      recentPerformance base events * 0.4 with hbldef
    have hbl0 : (0 : ℝ) ≤ (blended : ℝ) := by exact_mod_cast hbl.1
    have hbl8 : (blended : ℝ) ≤ 0.8 := by
      have := hbl.2
      rw [show ((0.8 : ℝ)) = ((0.8 : ℚ) : ℝ) by norm_num]
      exact_mod_cast this
    have hadj : ∀ adjusted : ℝ,
        (adjusted = min 1 ((blended : ℝ) + 0.05) ∨
          adjusted = max 0 ((blended : ℝ) - 0.05) ∨ adjusted = (blended : ℝ)) →
        0 ≤ adjusted ∧ adjusted ≤ 1 := by
      rintro adjusted (rfl | rfl | rfl)
      · exact ⟨le_min (by norm_num) (by linarith), min_le_left _ _⟩
      · exact ⟨le_max_left _ _, max_le (by norm_num) (by linarith)⟩
      · exact ⟨hbl0, by linarith⟩
    cases htr : trendDirection events with
    | improving =>
      have h := hadj (min 1 ((blended : ℝ) + 0.05)) (Or.inl rfl)
      exact ⟨mul_nonneg h.1 hst.1, mul_le_one₀ h.2 hst.1 hst.2⟩
    | declining =>
      have h := hadj (max 0 ((blended : ℝ) - 0.05)) (Or.inr (Or.inl rfl))
      exact ⟨mul_nonneg h.1 hst.1, mul_le_one₀ h.2 hst.1 hst.2⟩
    | stable =>
      have h := hadj (blended : ℝ) (Or.inr (Or.inr rfl))
      exact ⟨mul_nonneg h.1 hst.1, mul_le_one₀ h.2 hst.1 hst.2⟩

/-- C6 witness: the bound evaluated for as-created confidence 1/2 on the
two-event history [S,F]. -/
theorem c6_confidence_bounds_witness :
    (0 : ℚ) ≤ 1/2 ∧ (1/2 : ℚ) ≤ 1 ∧
      (0 ≤ (calculateEvolvedConfidence (1/2) (some [true, false])).currentConfidence ∧
        (calculateEvolvedConfidence (1/2) (some [true, false])).currentConfidence ≤ 1) :=
  ⟨by norm_num, by norm_num,
    c6_confidence_bounds (1/2) (some [true, false]) (by norm_num) (by norm_num)⟩

/-! ## C2: the enhanced view and the tracked specification

The claim is settled as a code bug: the projection intent is explicit
(the method copies the spec precisely to avoid touching it), but
`dict.copy()` is shallow, so the apply helpers write through shared
nested nodes into the tracked base spec.  The theorem evaluates the code
at a concrete one-constraint model: before the call the base spec has no
`required` list under its `/users` post schema; after the call the list
`["name"]` is reachable from the untouched base address 0, and the
selected constraint (confidence 0.8 > 0.7) was the one applied. -/

/-- C2: evaluating `get_enhanced_schema` at a base spec without a
`required` list and one stored required-field constraint of confidence
0.8 mutates the specification reachable from the base address: the
schema node shared between the base spec and the shallow copy gains
`required = ["name"]`. -/
theorem c2_enhanced_schema_mutates_base :
    navPath specHeap 0 requiredKeyPath = none ∧
    (navPath (getEnhancedSchema c2Model specHeap 0 none).1 0 requiredKeyPath).bind
      (readStrArr (getEnhancedSchema c2Model specHeap 0 none).1) = some ["name"] := by
  have h08 : cRequiredName08.confidenceScore > 0.7 := by
    norm_num [cRequiredName08, cRequiredName]
  have hstep : getEnhancedSchema c2Model specHeap 0 none =
      (if cRequiredName08.confidenceScore > 0.7 then
        applyConstraintToSpec c2CopyHeap 8 cRequiredName08
      else c2CopyHeap, 8) := rfl
  have hrun : getEnhancedSchema c2Model specHeap 0 none =
      (applyConstraintToSpec c2CopyHeap 8 cRequiredName08, 8) := by
    rw [hstep, if_pos h08]
  constructor
  · decide
  · rw [hrun]
    decide

/-! ## C4: pattern applicability and predictions -/

theorem splitChars_ne_nil (sep : Char) (cs : List Char) : splitChars sep cs ≠ [] := by
  cases cs with
  | nil => simp [splitChars]
  | cons c rest =>
    rcases h : splitChars sep rest with _ | ⟨part, parts⟩
    · simp [splitChars, h]
    · simp only [splitChars, h]
      split <;> simp

theorem splitChars_headD (sep : Char) (cs : List Char) :
    (splitChars sep cs).headD [] = cs.takeWhile fun c => ¬ c = sep := by
  induction cs with
  | nil => simp [splitChars]
  | cons c rest ih =>
    rcases hsp : splitChars sep rest with _ | ⟨part, parts⟩
    · exact absurd hsp (splitChars_ne_nil sep rest)
    · rw [hsp] at ih
      simp only [List.headD_cons] at ih
      by_cases h : c = sep
      · subst h
        simp only [splitChars, hsp]
        rw [if_true]
        simp only [List.headD_cons]
        rw [List.takeWhile_cons_of_neg (by simp)]
      · simp only [splitChars, hsp, if_neg h, List.headD_cons]
        rw [List.takeWhile_cons_of_pos (by simp [h]), ih]

theorem splitChars_sep_cons (sep : Char) (cs : List Char) :
    splitChars sep (sep :: cs) = [] :: splitChars sep cs := by
  rcases hsp : splitChars sep cs with _ | ⟨part, parts⟩
  · exact absurd hsp (splitChars_ne_nil sep cs)
  · simp [splitChars, hsp]

theorem pyStartsWith_slash_iff (ep : String) :
    pyStartsWith ep "/" = true ↔ ∃ rest, ep.toList = '/' :: rest := by
  constructor
  · intro h
    unfold pyStartsWith at h
    rcases hcs : ep.toList with _ | ⟨c, rest⟩
    · rw [hcs] at h
      simp at h
    · rw [hcs] at h
      simp at h
      exact ⟨rest, by simp [hcs, h]⟩
  · rintro ⟨rest, hrest⟩
    unfold pyStartsWith
    rw [hrest]
    simp

theorem string_mk_toList (s : String) : String.mk s.toList = s := rfl

theorem domainOf_eq_firstPathSegment (ep : String)
    (hep : pyStartsWith ep "/" = true ∨ '/' ∉ ep.toList) :
    domainOf ep = firstPathSegment ep := by
  rcases hep with hsl | hno
  · rcases (pyStartsWith_slash_iff ep).mp hsl with ⟨rest, hrest⟩
    have hmem : '/' ∈ ep.toList := by rw [hrest]; exact List.mem_cons_self _ _
    unfold domainOf firstPathSegment pySplit
    rw [if_pos hmem, if_pos hsl, hrest, splitChars_sep_cons]
    have hget : ∀ l : List (List Char), (([] : List Char) :: l).getD 1 [] = l.headD [] := by
      intro l; cases l <;> rfl
    have hmap : ((([] : List Char) :: splitChars '/' rest).map String.mk).getD 1 "" =
        String.mk ((([] : List Char) :: splitChars '/' rest).getD 1 []) := by
      rcases splitChars '/' rest with _ | ⟨p, ps⟩ <;> rfl
    rw [hmap, hget, splitChars_headD]
    rfl
  · have hsl : pyStartsWith ep "/" = false := by
      unfold pyStartsWith
      rcases hcs : ep.toList with _ | ⟨c, rest⟩
      · rfl
      · have hcne : ¬ c = '/' := fun hc => hno (by rw [hcs, hc]; exact List.mem_cons_self _ _)
        simp [hcne]
    have htk : ep.toList.takeWhile (fun c => ¬ c = '/') = ep.toList := by
      rw [List.takeWhile_eq_self_iff]
      intro a ha
      simp only [decide_eq_true_eq]
      exact fun heq => hno (heq ▸ ha)
    unfold domainOf firstPathSegment
    rw [if_neg (by simpa using hno), if_neg (by simp [hsl]), htk]
    rfl

theorem calculatePatternApplicability_global (pat : CrossEndpointPattern)
    (targetEndpoint : String) (targetParameters : List String)
    (h : pat.scope = .global) :
    calculatePatternApplicability pat targetEndpoint targetParameters = 0.8 := by
  simp only [calculatePatternApplicability, h]
  norm_num [min_def]

theorem calculatePatternApplicability_domainWide (pat : CrossEndpointPattern)
    (targetEndpoint : String) (targetParameters : List String)
    (h : pat.scope = .domainWide)
    (ht : pyStartsWith targetEndpoint "/" = true ∨ '/' ∉ targetEndpoint.toList)
    (he : ∀ e ∈ pat.affectedEndpoints,
      pyStartsWith e "/" = true ∨ '/' ∉ e.toList) :
    calculatePatternApplicability pat targetEndpoint targetParameters =
      if firstPathSegment targetEndpoint ∈ pat.affectedEndpoints.map firstPathSegment
      then 0.7 else 0.3 := by
  have hmap : pat.affectedEndpoints.map domainOf =
      pat.affectedEndpoints.map firstPathSegment :=
    List.map_congr_left fun e hmem => domainOf_eq_firstPathSegment e (he e hmem)
  simp only [calculatePatternApplicability, h, hmap,
    domainOf_eq_firstPathSegment targetEndpoint ht]
  by_cases hm : firstPathSegment targetEndpoint ∈ pat.affectedEndpoints.map firstPathSegment
  · simp only [if_pos hm]
    norm_num [min_def]
  · simp only [if_neg hm]
    norm_num [min_def]

theorem calculatePatternApplicability_parameterBased (pat : CrossEndpointPattern)
    (targetEndpoint : String) (targetParameters : List String) (name : String)
    (h : pat.scope = .parameterBased) (hp : pat.paramName = some name) :
    calculatePatternApplicability pat targetEndpoint targetParameters =
      if name ∈ targetParameters then 0.9 else 0.2 := by
  simp only [calculatePatternApplicability, h, hp]
  by_cases hm : name ∈ targetParameters
  · simp only [if_pos hm]
    norm_num [min_def]
  · simp only [if_neg hm]
    norm_num [min_def]

theorem calculatePatternApplicability_mem (pat : CrossEndpointPattern)
    (targetEndpoint : String) (targetParameters : List String) :
    0 ≤ calculatePatternApplicability pat targetEndpoint targetParameters ∧
      calculatePatternApplicability pat targetEndpoint targetParameters ≤ 1 := by
  cases hs : pat.scope
  case global => simp only [calculatePatternApplicability, hs]; constructor <;> norm_num [min_def]
  case endpointSpecific =>
    simp only [calculatePatternApplicability, hs]; constructor <;> norm_num [min_def]
  case operationBased =>
    simp only [calculatePatternApplicability, hs]; constructor <;> norm_num [min_def]
  case domainWide =>
    simp only [calculatePatternApplicability, hs]
    split_ifs <;> constructor <;> norm_num [min_def]
  case parameterBased =>
    cases hp : pat.paramName
    · simp only [calculatePatternApplicability, hs, hp]; constructor <;> norm_num [min_def]
    · simp only [calculatePatternApplicability, hs, hp]
      split_ifs <;> constructor <;> norm_num [min_def]

theorem mem_generatePatternPredictions_iff (patterns : List CrossEndpointPattern)
    (targetEndpoint : String) (targetParameters : List String)
    (pr : PatternPrediction) :
    pr ∈ generatePatternPredictions patterns targetEndpoint targetParameters ↔
      ∃ pat ∈ patterns,
        0.3 < calculatePatternApplicability pat targetEndpoint targetParameters ∧
        pr = { patternId := pat.patternId
               patternType := pat.patternType
               description := pat.patternDescription
               applicabilityScore :=
                 calculatePatternApplicability pat targetEndpoint targetParameters
               confidence := pat.confidence *
                 calculatePatternApplicability pat targetEndpoint targetParameters } := by
  unfold generatePatternPredictions
  rw [List.mem_insertionSort, List.mem_filterMap]
  constructor
  · rintro ⟨pat, hmem, hsome⟩
    unfold predictionOf at hsome
    by_cases hgt : calculatePatternApplicability pat targetEndpoint targetParameters > 0.3
    · rw [if_pos hgt] at hsome
      exact ⟨pat, hmem, hgt, (Option.some_injective _ hsome).symm⟩
    · rw [if_neg hgt] at hsome
      exact absurd hsome (by simp)
  · rintro ⟨pat, hmem, hgt, rfl⟩
    refine ⟨pat, hmem, ?_⟩
    unfold predictionOf
    rw [if_pos hgt]

/-- C4: applicability scores are 0.8 for global patterns; 0.7/0.3 for
domain-wide patterns according to whether the target endpoint's first
path segment matches some affected endpoint's first segment (for
endpoints in slash-led or slash-free form, as all endpoints of the system
are); 0.9/0.2 for parameter-based patterns carrying a parameter name
according to whether it occurs among the target parameters; scores stay
within [0,1]; exactly the patterns scoring strictly above 0.3 become
predictions, each with effective confidence = pattern confidence times
applicability; and the returned predictions are sorted by descending
effective confidence. -/
theorem c4_pattern_predictions (patterns : List CrossEndpointPattern)
    (targetEndpoint : String) (targetParameters : List String) :
    (∀ pat : CrossEndpointPattern, pat.scope = .global →
      calculatePatternApplicability pat targetEndpoint targetParameters = 0.8) ∧
    (∀ pat : CrossEndpointPattern, pat.scope = .domainWide →
      (pyStartsWith targetEndpoint "/" = true ∨ '/' ∉ targetEndpoint.toList) →
      (∀ e ∈ pat.affectedEndpoints, pyStartsWith e "/" = true ∨ '/' ∉ e.toList) →
      calculatePatternApplicability pat targetEndpoint targetParameters =
        if firstPathSegment targetEndpoint ∈ pat.affectedEndpoints.map firstPathSegment
        then 0.7 else 0.3) ∧
    (∀ pat name, pat.scope = .parameterBased → pat.paramName = some name →
      calculatePatternApplicability pat targetEndpoint targetParameters =
        if name ∈ targetParameters then 0.9 else 0.2) ∧
    (∀ pat : CrossEndpointPattern,
      0 ≤ calculatePatternApplicability pat targetEndpoint targetParameters ∧
        calculatePatternApplicability pat targetEndpoint targetParameters ≤ 1) ∧
    (∀ pr, pr ∈ generatePatternPredictions patterns targetEndpoint targetParameters ↔
      ∃ pat ∈ patterns,
        0.3 < calculatePatternApplicability pat targetEndpoint targetParameters ∧
        pr = { patternId := pat.patternId
               patternType := pat.patternType
               description := pat.patternDescription
               applicabilityScore :=
                 calculatePatternApplicability pat targetEndpoint targetParameters
               confidence := pat.confidence *
                 calculatePatternApplicability pat targetEndpoint targetParameters }) ∧
    (generatePatternPredictions patterns targetEndpoint targetParameters).Pairwise
      (fun a b => b.confidence ≤ a.confidence) := by
  refine ⟨?_, ?_, ?_, ?_, ?_, ?_⟩
  · exact fun pat h => calculatePatternApplicability_global pat _ _ h
  · exact fun pat h ht he =>
      calculatePatternApplicability_domainWide pat _ _ h ht he
  · exact fun pat name h hp =>
      calculatePatternApplicability_parameterBased pat _ _ name h hp
  · exact fun pat => calculatePatternApplicability_mem pat _ _
  · exact fun pr => mem_generatePatternPredictions_iff patterns _ _ pr
  · exact List.sorted_insertionSort predGE _

/-- C4 witness: the scoring rules applied to concrete global, domain-wide
and parameter-based patterns against the `/orders` endpoint with target
parameter list `["email"]`. -/
theorem c4_pattern_predictions_witness :
    calculatePatternApplicability patGlobal "/orders" ["email"] = 0.8 ∧
    calculatePatternApplicability patDomain "/orders" ["email"] =
      (if firstPathSegment "/orders" ∈ patDomain.affectedEndpoints.map firstPathSegment
        then 0.7 else 0.3) ∧
    calculatePatternApplicability scenarioPattern "/orders" ["email"] =
      (if "email" ∈ ["email"] then 0.9 else 0.2) :=
  ⟨(c4_pattern_predictions [patGlobal, patDomain, scenarioPattern] "/orders" ["email"]).1
      patGlobal rfl,
    (c4_pattern_predictions [patGlobal, patDomain, scenarioPattern] "/orders" ["email"]).2.1
      patDomain rfl (Or.inl (by decide)) (by decide),
    (c4_pattern_predictions [patGlobal, patDomain, scenarioPattern] "/orders" ["email"]).2.2.1
      scenarioPattern "email" rfl rfl⟩

/-! ## C7: minimum pattern support -/

theorem supportingIds_length (cs : List LearnedConstraint) :
    (supportingIds cs).length = cs.length := by
  simp [supportingIds]

theorem discoverParameterPatterns_support
    (groups : List (String × List LearnedConstraint)) :
    ∀ p ∈ discoverParameterPatterns groups, 2 ≤ p.supportingConstraints.length := by
  intro p hp
  rcases List.mem_filterMap.mp hp with ⟨g, _, heq⟩
  simp only [discoverParameterPatterns] at heq
  split at heq
  next h1 => exact absurd heq (by simp)
  next h1 =>
    split at heq
    next h2 =>
      rw [← Option.some_inj.mp heq]
      simp only [supportingIds_length]
      omega
    next h2 => exact absurd heq (by simp)

theorem discoverValidationPatterns_support (cs : List LearnedConstraint) :
    ∀ p ∈ discoverValidationPatterns cs, 2 ≤ p.supportingConstraints.length := by
  intro p hp
  rcases List.mem_filterMap.mp hp with ⟨g, _, heq⟩
  simp only [discoverValidationPatterns] at heq
  split at heq
  next h1 =>
    rw [← Option.some_inj.mp heq]
    simp only [supportingIds_length]
    omega
  next h1 => exact absurd heq (by simp)

theorem discoverBusinessRulePatterns_support (cs : List LearnedConstraint) :
    ∀ p ∈ discoverBusinessRulePatterns cs, 2 ≤ p.supportingConstraints.length := by
  intro p hp
  rcases List.mem_flatMap.mp hp with ⟨g, _, hin⟩
  simp only [discoverBusinessRulePatterns] at hin
  split at hin
  next h1 =>
    rcases List.mem_filterMap.mp hin with ⟨vg, _, heq⟩
    split at heq
    next h2 =>
      rw [← Option.some_inj.mp heq]
      simp only [supportingIds_length]
      omega
    next h2 => exact absurd heq (by simp)
  next h1 => exact absurd hin (List.not_mem_nil p)

theorem operationalLoop_support (groups : List (String × List LearnedConstraint))
    (pats : List CrossEndpointPattern) (h : operationalLoop groups = .ok pats) :
    ∀ p ∈ pats, 2 ≤ p.supportingConstraints.length := by
  induction groups generalizing pats with
  | nil =>
    simp only [operationalLoop] at h
    cases h
    intro p hp
    exact absurd hp (List.not_mem_nil p)
  | cons g rest ih =>
    simp only [operationalLoop] at h
    split_ifs at h with h1
    · rcases hsp : pySplit '_' g.1 with _ | ⟨a, t⟩
      · rw [hsp] at h
        simp at h
      · rcases t with _ | ⟨b, t2⟩
        · rw [hsp] at h
          simp at h
        · rcases t2 with _ | ⟨c, t3⟩
          · rw [hsp] at h
            simp at h
          · rcases t3 with _ | _
            · rw [hsp] at h
              cases hrec : operationalLoop rest with
              | error e =>
                rw [hrec] at h
                have h' : (Except.error e : Except String (List CrossEndpointPattern)) =
                    Except.ok pats := h
                cases h'
              | ok tail =>
                rw [hrec] at h
                have h' : Except.ok (mkRateLimitPattern g.1 a b c g.2 :: tail) =
                    Except.ok pats := h
                cases h'
                intro p hp
                rcases List.mem_cons.mp hp with rfl | hmem
                · simp only [mkRateLimitPattern, supportingIds_length]
                  omega
                · exact ih tail hrec p hmem
            · rw [hsp] at h
              simp at h
    · exact ih pats h

/-- C7: every pattern emitted by a successful pattern-discovery pass —
parameter-validation, mutual-exclusivity, business-rule, or
rate-limiting — has at least 2 supporting constraints. -/
theorem c7_min_support (constraints : List (String × LearnedConstraint))
    (pats : List CrossEndpointPattern)
    (h : analyzeConstraintPatterns constraints = .ok pats) :
    ∀ p ∈ pats, 2 ≤ p.supportingConstraints.length := by
  intro p hp
  simp only [analyzeConstraintPatterns, bind, Except.bind] at h
  cases hop : discoverOperationalPatterns
      ((constraints.map Prod.snd).filter fun c =>
        c.constraintType = ConstraintType.rateLimiting) with
  | error e =>
    rw [hop] at h
    simp at h
  | ok ops =>
    rw [hop] at h
    simp only [pure, Except.pure, Except.ok.injEq] at h
    rw [← h] at hp
    rcases List.mem_append.mp hp with hmem | hop'
    · rcases List.mem_append.mp hmem with hmem' | hbus
      · rcases List.mem_append.mp hmem' with hpar | hval
        · exact discoverParameterPatterns_support _ p hpar
        · exact discoverValidationPatterns_support _ p hval
      · exact discoverBusinessRulePatterns_support _ p hbus
    · exact operationalLoop_support _ ops hop p hop'

/-! ## C8: the two-email-constraint scenario -/

theorem analyzeScenario_eq :
    analyzeConstraintPatterns scenarioRepo = .ok [scenarioPattern] := by
  have hmin : minConfidence [emailUsers, emailProfiles] = 0.75 := by
    simp only [minConfidence, List.foldl_cons, List.foldl_nil]
    norm_num [min_def, emailUsers, emailProfiles]
  have hstep : analyzeConstraintPatterns scenarioRepo =
      .ok [{ scenarioPattern with
              confidence := minConfidence [emailUsers, emailProfiles] }] := rfl
  rw [hstep, hmin]
  rfl

/-- C7 witness: the support bound applied to the concrete discovery pass
over the two-email-constraint repository. -/
theorem c7_min_support_witness :
    2 ≤ scenarioPattern.supportingConstraints.length :=
  c7_min_support scenarioRepo [scenarioPattern] analyzeScenario_eq
    scenarioPattern (List.mem_singleton.mpr rfl)

/-- C8: on the repository holding exactly the two `email`
format-validation constraints on `/users` (0.9) and `/profiles` (0.75),
the discovery pass emits exactly one pattern; it is a
parameter-validation pattern with confidence 0.75 (the minimum of the
contributing confidences), scope parameter_based, and affected endpoints
{"/users", "/profiles"}. -/
theorem c8_scenario :
    analyzeConstraintPatterns scenarioRepo = .ok [scenarioPattern] ∧
    scenarioPattern.patternType = "parameter_validation" ∧
    scenarioPattern.confidence = 0.75 ∧
    scenarioPattern.confidence =
      min emailUsers.confidenceScore emailProfiles.confidenceScore ∧
    scenarioPattern.scope = .parameterBased ∧
    scenarioPattern.affectedEndpoints = ["/users", "/profiles"] ∧
    (∀ e, e ∈ scenarioPattern.affectedEndpoints ↔ (e = "/users" ∨ e = "/profiles")) := by
  refine ⟨analyzeScenario_eq, rfl, rfl, ?_, rfl, rfl, ?_⟩
  · norm_num [min_def, emailUsers, emailProfiles, scenarioPattern]
  · intro e
    simp [scenarioPattern]

end Echidna
